import Mathlib

/-!
Verification development for the Index construction pipeline of the
toughest_places_index repository (src/index/data/{indicator,dimension,index,
scalers,imputers,summary}.py and src/index/common.py).

Modelling conventions:
* pandas DataFrames are modelled as concrete Lean lists.  An indicator-level
  table (columns iso_code, value) is a `Table`; a wide country-by-indicator
  table is a `WideTable` (row labels in `index`, column labels in `cols`,
  cell values row-major in `vals`).  `none` plays the role of NaN.
* numeric cell values are rationals; the floating-point kernels of
  sklearn/numpy that the code calls (StandardScaler, QuantileTransformer,
  PowerTransformer, IterativeImputer, KNNImputer, the three-sigma test's
  standard deviation) are irrational/float computations and are therefore
  parameters of the model, collected in `SklEnv`.  The transforms whose
  arithmetic is exact on rationals (MinMaxScaler, MaxAbsScaler, RobustScaler,
  SimpleImputer with median/mean/most_frequent, the IQR outlier test,
  pandas quantile interpolation) are implemented concretely.
* Python exceptions are modelled with `Except Err`; each `raise` site of the
  source corresponds to one `Err` constructor, and an f-string message that
  interpolates data (such as the list of registered scaler names) is modelled
  by that data being carried in the constructor.
* mutation of `self` is modelled by state passing: a method that mutates its
  object returns the updated object.
-/

/-- An indicator-level two-column table: rows of (iso_code, value).
`none` models a NaN value. -/
abbrev Table := List (String × Option ℚ)

/-- A wide country-by-indicator table: row labels (iso codes) in `index`,
column labels (indicator names) in `cols`, cell values row-major in `vals`. -/
structure WideTable where
  index : List String
  cols : List String
  vals : List (List (Option ℚ))
deriving DecidableEq

/-- A long-format row as produced by `Dimension.get_data(orient="long")`:
(iso_code, value, indicator name). -/
abbrev LongRow := String × Option ℚ × String

/-- The table cached by a Dimension: either the wide pivot or the long
concatenation, whichever orientation was computed first. -/
inductive DimTable
  | wide (t : WideTable)
  | long (rows : List LongRow)
deriving DecidableEq

/-- The table cached by an Index: the wide aggregate, the long concatenation,
or the summarized one-score-per-country Series produced by `index_data`. -/
inductive IdxData
  | table (w : WideTable)
  | longTable (rows : List LongRow)
  | series (s : Table)
deriving DecidableEq

/-- Python exceptions raised by the pipeline, one constructor per raise site.
Data interpolated into the exception message (for instance the list of
registered transform names) is carried by the constructor. -/
inductive Err
  | missingColumns (cols : List String)
  | duplicateIso
  | unknownScaler (requested : String) (available : List String)
  | unknownImputer (requested : String) (available : List String)
  | invalidOrientation (orient : String)
  | wideWithDate
  | pivotDuplicate
  | keyError (col : String)
  | runtimeError (msg : String)
deriving DecidableEq

instance instDecEqExcept {e a : Type} [DecidableEq e] [DecidableEq a] :
    DecidableEq (Except e a) := fun x y =>
  match x, y with
  | .ok u, .ok v =>
    if h : u = v then isTrue (by rw [h]) else isFalse (by simp [h])
  | .error u, .error v =>
    if h : u = v then isTrue (by rw [h]) else isFalse (by simp [h])
  | .ok _, .error _ => isFalse (fun hc => Except.noConfusion hc)
  | .error _, .ok _ => isFalse (fun hc => Except.noConfusion hc)

/-- External floating-point numeric kernels used by the source through
sklearn/numpy.  Their float arithmetic (standardization, quantile and power
transforms, iterative and kNN imputation, standard deviation) is outside the
rational-valued model, so they are parameters.  Keyword arguments that only
feed these kernels (for example `n_neighbors`) are absorbed into the kernel. -/
structure SklEnv where
  standard : Table → Table
  quantile : Table → Table
  power : Table → Table
  iterativeKernel : WideTable → List (List (Option ℚ))
  knnKernel : WideTable → List (List (Option ℚ))
  sigmaTest : List (Option ℚ) → List Bool

/-! ### List and table helpers -/

/-- Cell of a row at a named column: the value aligned with the first
occurrence of the name in the column list (pandas label lookup). -/
def cellAt : List String → List (Option ℚ) → String → Option ℚ
  | [], _, _ => none
  | _ :: _, [], _ => none
  | c :: cs, v :: vs, t => if c = t then v else cellAt cs vs t

/-- Column of a wide table by name (pandas `df[c]`). -/
def getCol (w : WideTable) (c : String) : List (Option ℚ) :=
  w.vals.map (fun row => cellAt w.cols row c)

/-- Column of a wide table by position. -/
def colByIdx (w : WideTable) (j : ℕ) : List (Option ℚ) :=
  w.vals.map (fun row => row.getD j none)

/-- Projection of a wide table onto a list of column names
(pandas `df[cs]`). -/
def selectCols (w : WideTable) (cs : List String) : WideTable :=
  ⟨w.index, cs, w.vals.map (fun row => cs.map (fun c => cellAt w.cols row c))⟩

/-- Column-wise concatenation of two tables carrying the same row index
(pandas `pd.concat([a, b], axis=1)` for identically indexed frames). -/
def hconcat (a b : WideTable) : WideTable :=
  ⟨a.index, a.cols ++ b.cols, List.zipWith (· ++ ·) a.vals b.vals⟩

/-- Minimum of a list of rationals, `none` when empty (pandas `min` after
dropping NaN). -/
def listMin : List ℚ → Option ℚ
  | [] => none
  | x :: xs => some (xs.foldl min x)

/-- Maximum of a list of rationals, `none` when empty. -/
def listMax : List ℚ → Option ℚ
  | [] => none
  | x :: xs => some (xs.foldl max x)

/-- NaN-propagating addition on optional rationals. -/
def oAdd : Option ℚ → Option ℚ → Option ℚ
  | some x, some y => some (x + y)
  | _, _ => none

/-- NaN-propagating subtraction. -/
def oSub : Option ℚ → Option ℚ → Option ℚ
  | some x, some y => some (x - y)
  | _, _ => none

/-- NaN-propagating multiplication. -/
def oMul : Option ℚ → Option ℚ → Option ℚ
  | some x, some y => some (x * y)
  | _, _ => none

/-- NaN-propagating division.  Rational division by zero yields 0 in Lean;
the float infinities this would produce in Python are outside the model and
every statement about a division keeps the divisor nonzero. -/
def oDiv : Option ℚ → Option ℚ → Option ℚ
  | some x, some y => some (x / y)
  | _, _ => none

/-- NaN-propagating absolute value. -/
def oAbs : Option ℚ → Option ℚ
  | some x => some |x|
  | none => none

/-- NaN-propagating sum of a list (Python `sum` over floats). -/
def oSum : List (Option ℚ) → Option ℚ
  | [] => some 0
  | x :: xs => oAdd x (oSum xs)

/-- Round-half-to-even to an integer, the rounding used by numpy/pandas
`round`. -/
def roundHalfEven (x : ℚ) : ℤ :=
  if x - ⌊x⌋ < 1 / 2 then ⌊x⌋
  else if 1 / 2 < x - ⌊x⌋ then ⌊x⌋ + 1
  else if Even ⌊x⌋ then ⌊x⌋ else ⌊x⌋ + 1

/-- Round to one decimal place, half to even (`round(x, 1)` on a
pandas Series). -/
def round1 (x : ℚ) : ℚ := (roundHalfEven (x * 10) : ℚ) / 10

/-- NaN-propagating one-decimal rounding. -/
def oRound1 : Option ℚ → Option ℚ
  | some x => some (round1 x)
  | none => none

/-- Mean of the non-null entries of a row, `none` when the row is entirely
null (pandas `mean(axis=1)` with default `skipna`). -/
def rowMean (row : List (Option ℚ)) : Option ℚ :=
  let xs := row.filterMap id
  if xs.isEmpty then none else some (xs.sum / xs.length)

/-- Row means of a wide table as a Series keyed by the row index
(`df.mean(axis=1)`). -/
def meanSeries (w : WideTable) : Table :=
  List.zipWith (fun i row => (i, rowMean row)) w.index w.vals

/-- Ordering used by `sort_values(ascending=False)`: larger values first,
null (NaN) values last. -/
def descValLe (a b : Option ℚ) : Prop :=
  match a, b with
  | _, none => True
  | none, some _ => False
  | some x, some y => y ≤ x

instance descValLe.decidableRel : DecidableRel descValLe := by
  intro a b
  cases a <;> cases b <;> simp [descValLe] <;> infer_instance

/-- Ordering on labelled series entries induced by `descValLe` on values. -/
def descPairLe (a b : String × Option ℚ) : Prop := descValLe a.2 b.2

instance descPairLe.decidableRel : DecidableRel descPairLe := by
  intro a b
  unfold descPairLe
  infer_instance

/-- Sort a Series by value, descending, NaN last
(`sort_values(ascending=False)`).  The source uses pandas quicksort, whose
order among ties is unspecified; any sort realises the documented
behaviour. -/
def sort_values_desc (s : Table) : Table :=
  List.insertionSort descPairLe s

/-- Character-wise lexicographic comparison of strings, the order pandas uses
when a pivot sorts row and column labels. -/
def strLeB : List Char → List Char → Bool
  | [], _ => true
  | _ :: _, [] => false
  | x :: xs, y :: ys =>
    if x.val < y.val then true
    else if y.val < x.val then false
    else strLeB xs ys

/-- Lexicographic order on strings as a proposition. -/
def strLe (a b : String) : Prop := strLeB a.toList b.toList = true

instance strLe.decidableRel : DecidableRel strLe := by
  intro a b
  unfold strLe
  infer_instance

/-- Distinct values of a label list in sorted order, as produced for the row
and column axes of a pandas pivot. -/
def sortedUnique (xs : List String) : List String :=
  List.insertionSort strLe (xs.eraseDups)

/-! ### Scalers (src/index/data/scalers.py)

`__skl_scaler` pins the iso_code index, runs the sklearn scaler on the value
column and restores the index; on the two-column `Table` representation this
is a value-column transform.  MinMaxScaler, MaxAbsScaler and RobustScaler are
exact rational computations and are implemented; StandardScaler,
QuantileTransformer and PowerTransformer need square roots or distribution
fitting and live in `SklEnv`. -/

/-- MinMaxScaler with the default feature_range (0, 1): maps x to
(x - min) / (max - min), NaN ignored for the statistics and preserved in the
output; a zero range is replaced by 1 (sklearn handle_zeros_in_scale). -/
def skl_minmax_scaler (t : Table) : Table :=
  let xs := t.filterMap (·.2)
  match listMin xs, listMax xs with
  | some m, some M =>
    let d := if M - m = 0 then 1 else M - m
    t.map (fun p => (p.1, p.2.map (fun x => (x - m) / d)))
  | _, _ => t

/-- MaxAbsScaler: x / max |x|, a zero maximum replaced by 1. -/
def skl_maxabs_scaler (t : Table) : Table :=
  let xs := t.filterMap (·.2)
  match listMax (xs.map (fun x => |x|)) with
  | some M =>
    let d := if M = 0 then 1 else M
    t.map (fun p => (p.1, p.2.map (fun x => x / d)))
  | none => t

/-- Linear-interpolation quantile of a list, the `numpy percentile`
interpolation used by pandas `Series.quantile` and RobustScaler. -/
def quantileInterp (xs : List ℚ) (q : ℚ) : Option ℚ :=
  match List.insertionSort (· ≤ ·) xs with
  | [] => none
  | y :: ys =>
    let s := y :: ys
    let h := q * ((s.length : ℚ) - 1)
    let i := (⌊h⌋).toNat
    let lo := s.getD i 0
    let hi := s.getD (i + 1) lo
    some (lo + (h - (i : ℚ)) * (hi - lo))

/-- RobustScaler with default parameters: (x - median) / IQR, the IQR taken
between the 25th and 75th percentiles, a zero IQR replaced by 1.  The source
file names this `slk_robust_scaler`. -/
def slk_robust_scaler (t : Table) : Table :=
  let xs := t.filterMap (·.2)
  match quantileInterp xs (1 / 2), quantileInterp xs (1 / 4), quantileInterp xs (3 / 4) with
  | some med, some q25, some q75 =>
    let d := if q75 - q25 = 0 then 1 else q75 - q25
    t.map (fun p => (p.1, p.2.map (fun x => (x - med) / d)))
  | _, _, _ => t

/-- Names registered in the SCALERS dictionary, in source order. -/
def SCALER_NAMES : List String :=
  ["standard", "minmax", "maxabs", "robust", "quantile", "power"]

/-- The SCALERS registry (src/index/data/scalers.py): transform functions
keyed by name. -/
def SCALERS (env : SklEnv) : List (String × (Table → Table)) :=
  [("standard", env.standard), ("minmax", skl_minmax_scaler),
   ("maxabs", skl_maxabs_scaler), ("robust", slk_robust_scaler),
   ("quantile", env.quantile), ("power", env.power)]

/-! ### Imputers (src/index/data/imputers.py) -/

/-- Decides whether a named column of a wide table is entirely null
(`df[column].notna().sum() == 0`). -/
def allNullCol (w : WideTable) (c : String) : Bool :=
  (getCol w c).all (fun v => v.isNone)

/-- Median of the non-null entries of a column: numpy nanmedian, the average
of the two middle values for an even count, which equals linear interpolation
at the half quantile. -/
def medianQ (xs : List ℚ) : Option ℚ := quantileInterp xs (1 / 2)

/-- Mean of a list of rationals. -/
def meanQ (xs : List ℚ) : Option ℚ :=
  if xs.isEmpty then none else some (xs.sum / xs.length)

/-- Most frequent value, smallest first on ties (sklearn most_frequent). -/
def modeQ (xs : List ℚ) : Option ℚ :=
  let cnt := fun v => (xs.filter (fun y => y = v)).length
  let maxc := (xs.map cnt).foldl max 0
  listMin (xs.filter (fun v => cnt v = maxc))

/-- Column-wise fill kernel of sklearn SimpleImputer: each column's nulls are
replaced by a statistic of that column's non-null entries.  The statistic of
an entirely null column would make SimpleImputer drop the column, but the
wrapper `sklImputer` never passes one. -/
def fillKernel (fill : List ℚ → Option ℚ) (w : WideTable) :
    List (List (Option ℚ)) :=
  let stats := (List.range w.cols.length).map
    (fun j => fill ((colByIdx w j).filterMap id))
  w.vals.map (fun row => (List.range w.cols.length).map (fun j =>
    match row.getD j none with
    | some v => some v
    | none => stats.getD j none))

/-- `__skl_imputer` (src/index/data/imputers.py lines 10-39): columns that are
entirely null are detached before the imputer object is fitted — they would be
discarded by its transform — and reattached unchanged in front of the imputed
columns.  `kernel` models `imputer_obj.fit_transform`, which returns a bare
matrix that pandas reshapes onto the retained columns and the original index;
a matrix of the wrong shape would make that DataFrame constructor raise. -/
def sklImputer (kernel : WideTable → List (List (Option ℚ))) (df : WideTable) :
    Except Err WideTable :=
  let allMissing := df.cols.filter (fun c => allNullCol df c)
  let keepCols := df.cols.filter (fun c => ! allNullCol df c)
  let dfMissing := selectCols df allMissing
  let dfKeep := selectCols df keepCols
  let m := kernel dfKeep
  if m.length = df.index.length ∧ ∀ row ∈ m, row.length = keepCols.length then
    .ok (hconcat dfMissing ⟨df.index, keepCols, m⟩)
  else
    .error (.runtimeError "imputed matrix shape mismatch")

/-- Names registered in the IMPUTERS dictionary.
Modelled from the spec: the IMPUTERS dict itself is imported by
src/index/data/index.py and dimension.py but its definition is not under
src/; section 4.3 of the spec requires column-wise central-tendency fill
(median/mean/most_frequent), multivariate iterative fill and k-nearest-
neighbor fill, and the callers in src use the key "knn". -/
def IMPUTER_NAMES : List String :=
  ["median", "mean", "most_frequent", "iterative", "knn"]

/-- Modelled from the spec: the IMPUTERS registry (its dict literal is not
under src/), mapping each statistical strategy of spec section 4.3 to the
`__skl_imputer` wrapper around the corresponding sklearn imputer.  The
median/mean/most_frequent kernels are exact rational computations; the
iterative and kNN kernels are float routines taken from the environment. -/
def IMPUTERS (env : SklEnv) :
    List (String × (WideTable → Except Err WideTable)) :=
  [("median", sklImputer (fillKernel medianQ)),
   ("mean", sklImputer (fillKernel meanQ)),
   ("most_frequent", sklImputer (fillKernel modeQ)),
   ("iterative", sklImputer env.iterativeKernel),
   ("knn", sklImputer env.knnKernel)]

/-! ### Indicator (src/index/data/indicator.py, src/index/common.py) -/

/-- Columns required of an Indicator's source table. -/
def REQUIRED_COLS : List String := ["iso_code", "value"]

/-- A raw source table handed to the Indicator constructor: the names of all
its columns, plus the iso_code and value columns row-aligned.  Extra columns
beyond these two only matter through their names (they are dropped by the
constructor's final `filter`); the optional date column is not modelled. -/
structure SrcTable where
  cols : List String
  iso : List String
  value : List (Option ℚ)
deriving DecidableEq

/-- An Indicator after construction: `raw_data` is the validated and filtered
two-column table, `data` the lazily created working copy. -/
structure Indicator where
  raw_data : Table
  indicator_name : String
  more_is_worse : Bool
  data : Option Table
  countries_list : Option (List String)
deriving DecidableEq

/-- `keep_only_valid_iso` (src/index/common.py lines 259-268): keep the rows
whose iso code belongs to the externally supplied valid-ISO universe; invalid
rows are dropped with a printed warning, not an error. -/
def keep_only_valid_iso (valid_iso : List String) (t : Table) : Table :=
  t.filter (fun r => r.1 ∈ valid_iso)

/-- Indicator construction (`__check_data` and `__post_init__`,
src/index/data/indicator.py lines 22-51): raise KeyError when a required
column is missing, raise ValueError on duplicated iso codes, then keep only
valid-ISO rows and, when a countries_list is given, reindex exactly to it
(absent codes become null rows, codes outside the list are dropped). -/
def mkIndicator (src : SrcTable) (name : String) (more_is_worse : Bool)
    (countries_list : Option (List String)) (valid_iso : List String) :
    Except Err Indicator :=
  if ¬ (∀ c ∈ REQUIRED_COLS, c ∈ src.cols) then
    .error (.missingColumns (REQUIRED_COLS.filter (fun c => c ∉ src.cols)))
  else if ¬ src.iso.Nodup then
    .error .duplicateIso
  else
    let t1 := keep_only_valid_iso valid_iso (src.iso.zip src.value)
    let t2 := match countries_list with
      | none => t1
      | some cl => cl.map (fun c => (c, (List.lookup c t1).join))
    .ok ⟨t2, name, more_is_worse, none, countries_list⟩

/-- `Indicator.get_data` (src lines 63-73): populate the working copy from
`raw_data` on first read, then return it.  The `with_date` variant only
appends the unmodelled date column and is omitted. -/
def Indicator.get_data (i : Indicator) : Indicator × Table :=
  match i.data with
  | some d => (i, d)
  | none => ({ i with data := some i.raw_data }, i.raw_data)

/-- `Indicator.rescale` (src lines 53-61): unknown scaler names fail before
anything is touched, with the registered names in the message; otherwise the
working table returned by `get_data` is replaced by its transform. -/
def Indicator.rescale (env : SklEnv) (i : Indicator) (scaler_name : String) :
    Except Err Indicator :=
  match List.lookup scaler_name (SCALERS env) with
  | none => .error (.unknownScaler scaler_name SCALER_NAMES)
  | some f =>
    let p := i.get_data
    .ok { p.1 with data := some (f p.2) }

/-! ### Dimension (src/index/data/dimension.py) -/

/-- A Dimension: its owned Indicators and the cached derived table. -/
structure Dimension where
  indicators : List Indicator
  dimension_name : Option String
  data : Option DimTable
deriving DecidableEq

/-- The concatenation loop of `Dimension.get_data`: each indicator's working
table (whose read may populate the indicator's cache) tagged with the
indicator name, appended in order. -/
def buildLong : List Indicator → List Indicator × List LongRow
  | [] => ([], [])
  | i :: rest =>
    let p := i.get_data
    let q := buildLong rest
    (p.1 :: q.1, p.2.map (fun r => (r.1, r.2, p.1.indicator_name)) ++ q.2)

/-- pandas `pivot(index="iso_code", columns="indicator", values="value")`:
fails on duplicate (iso, indicator) pairs, otherwise produces the wide table
with both axes sorted and deduplicated. -/
def pivotLong (rows : List LongRow) : Except Err WideTable :=
  if (rows.map (fun r => (r.1, r.2.2))).Nodup then
    let idx := sortedUnique (rows.map (·.1))
    let cs := sortedUnique (rows.map (fun r => r.2.2))
    .ok ⟨idx, cs, idx.map (fun i => cs.map (fun c =>
      ((rows.find? (fun r => decide (r.1 = i) && decide (r.2.2 = c))).map
        (·.2.1)).join))⟩
  else
    .error .pivotDuplicate

/-- `Dimension.get_data` (src lines 37-72).  A cached table is returned
before any validation, whatever the arguments.  Otherwise the long
concatenation is built first; only then does the wide branch reject
`with_date` and pivot, the long branch cache the concatenation, and any
other orientation raise. -/
def Dimension.get_data (d : Dimension) (orient : String) (with_date : Bool) :
    Except Err (Dimension × DimTable) :=
  match d.data with
  | some t => .ok (d, t)
  | none =>
    let p := buildLong d.indicators
    let d' : Dimension := { d with indicators := p.1 }
    if orient = "wide" then
      if with_date then .error .wideWithDate
      else do
        let w ← pivotLong p.2
        .ok ({ d' with data := some (.wide w) }, .wide w)
    else if orient = "long" then
      .ok ({ d' with data := some (.long p.2) }, .long p.2)
    else
      .error (.invalidOrientation orient)

/-- The fan-out of a rescale call over a list of indicators (the loops of
`Dimension.rescale` and, one level up, `Index.rescale`). -/
def rescaleIndicators (env : SklEnv) (scaler_name : String) :
    List Indicator → Except Err (List Indicator)
  | [] => .ok []
  | i :: rest => do
    let i' ← i.rescale env scaler_name
    let rest' ← rescaleIndicators env scaler_name rest
    return i' :: rest'

/-- `Dimension.rescale` (src lines 22-25): rescale every owned Indicator.
The cached `data` of the Dimension itself is not touched. -/
def Dimension.rescale (env : SklEnv) (d : Dimension) (scaler_name : String) :
    Except Err Dimension := do
  let inds ← rescaleIndicators env scaler_name d.indicators
  return { d with indicators := inds }

/-- `Dimension.impute_missing_data` (src lines 27-35): unknown methods fail
listing the registered names; otherwise the named imputer runs over the
current wide table and its output becomes the new cached `data`.  A cached
long table would reach sklearn with a string column and fail there. -/
def Dimension.impute_missing_data (env : SklEnv) (d : Dimension)
    (method : String) : Except Err Dimension :=
  match List.lookup method (IMPUTERS env) with
  | none => .error (.unknownImputer method IMPUTER_NAMES)
  | some f => do
    let p ← d.get_data "wide" false
    match p.2 with
    | .wide w => do
      let w' ← f w
      return { p.1 with data := some (.wide w') }
    | .long _ => .error (.runtimeError "imputer over long-format data")

/-! ### Index (src/index/data/index.py) -/

/-- An Index: its owned Dimensions and the cached aggregate table. -/
structure Index where
  dimensions : List Dimension
  data : Option IdxData
deriving DecidableEq

/-- All owned indicators of an Index in the order of the source's nested
`for dimension in self.dimensions: for indicator in dimension.indicators`
loops. -/
def allIndicators (idx : Index) : List Indicator :=
  idx.dimensions.foldr (fun d acc => d.indicators ++ acc) []

/-- The fan-out of `Index.rescale` over the dimension list. -/
def rescaleDimensions (env : SklEnv) (scaler_name : String) :
    List Dimension → Except Err (List Dimension)
  | [] => .ok []
  | d :: rest => do
    let d' ← d.rescale env scaler_name
    let rest' ← rescaleDimensions env scaler_name rest
    return d' :: rest'

/-- `Index.rescale` (src lines 25-28): delegate to every owned Dimension;
the Index's own cached `data` is not touched. -/
def Index.rescale (env : SklEnv) (idx : Index) (scaler_name : String) :
    Except Err Index := do
  let dims ← rescaleDimensions env scaler_name idx.dimensions
  return { idx with dimensions := dims }

/-- Outer column-wise concatenation of two iso-indexed wide tables
(`pd.concat(axis=1)` in the wide branch of `Index.get_data`).  Differing
indexes are outer-joined; pandas sorts the union of unequal indexes. -/
def outerHConcat (a b : WideTable) : WideTable :=
  if a.index = b.index then
    ⟨a.index, a.cols ++ b.cols, List.zipWith (· ++ ·) a.vals b.vals⟩
  else
    let idx := sortedUnique (a.index ++ b.index)
    ⟨idx, a.cols ++ b.cols, idx.map (fun i =>
      (rowFor a i) ++ (rowFor b i))⟩
where
  /-- row of a wide table at an index label, all-null when the label is
  absent. -/
  rowFor (w : WideTable) (i : String) : List (Option ℚ) :=
    match (List.zip w.index w.vals).lookup i with
    | some row => w.cols.map (fun c => cellAt w.cols row c)
    | none => w.cols.map (fun _ => none)

/-- The wide-orientation assembly loop of `Index.get_data`: each dimension's
wide table (computing it may update the dimension's caches) concatenated
column-wise.  A dimension whose cache holds a long table would inject a
string column into the numeric aggregate and break downstream numeric
operations; the model rejects it at this point. -/
def assembleWide (with_date : Bool) :
    List Dimension → Except Err (List Dimension × Option WideTable)
  | [] => .ok ([], none)
  | d :: rest => do
    let p ← d.get_data "wide" with_date
    match p.2 with
    | .wide w => do
      let q ← assembleWide with_date rest
      match q.2 with
      | none => .ok (p.1 :: q.1, some w)
      | some w2 => .ok (p.1 :: q.1, some (outerHConcat w w2))
    | .long _ => .error (.runtimeError "cached long table in wide concat")

/-- The long-orientation assembly loop of `Index.get_data`: dimension long
tables appended row-wise. -/
def assembleLong (with_date : Bool) :
    List Dimension → Except Err (List Dimension × List LongRow)
  | [] => .ok ([], [])
  | d :: rest => do
    let p ← d.get_data "long" with_date
    match p.2 with
    | .long rows => do
      let q ← assembleLong with_date rest
      .ok (p.1 :: q.1, rows ++ q.2)
    | .wide _ => .error (.runtimeError "cached wide table in long concat")

/-- `Index.get_data` (src lines 299-319): a cached table is returned
immediately whatever the arguments; otherwise the orientation is validated
and the dimensions' tables are assembled and cached. -/
def Index.get_data (idx : Index) (orient : String) (with_date : Bool) :
    Except Err (Index × IdxData) :=
  match idx.data with
  | some t => .ok (idx, t)
  | none =>
    if orient = "wide" then do
      let q ← assembleWide with_date idx.dimensions
      let w := (q.2).getD ⟨[], [], []⟩
      .ok ({ dimensions := q.1, data := some (.table w) }, .table w)
    else if orient = "long" then do
      let q ← assembleLong with_date idx.dimensions
      .ok ({ dimensions := q.1, data := some (.longTable q.2) }, .longTable q.2)
    else
      .error (.invalidOrientation orient)

/-- `Index.impute_missing_data` (src lines 30-38): unknown methods fail
immediately listing the registered names; otherwise the named imputer runs
over the current aggregate table and its output replaces `self.data`.
A cached Series or long table is one-dimensional or non-numeric for sklearn
and fails there. -/
def Index.impute_missing_data (env : SklEnv) (idx : Index) (method : String) :
    Except Err Index :=
  match List.lookup method (IMPUTERS env) with
  | none => .error (.unknownImputer method IMPUTER_NAMES)
  | some f => do
    let p ← idx.get_data "wide" false
    match p.2 with
    | .table w => do
      let w' ← f w
      return { p.1 with data := some (.table w') }
    | _ => .error (.runtimeError "imputer needs a wide numeric table")

/-- Negation of every position of a row whose column label matches
(`df[c] *= -1` on one row). -/
def negRow : List String → List (Option ℚ) → String → List (Option ℚ)
  | [], _, _ => []
  | _ :: _, [], _ => []
  | c :: cs, v :: vs, t =>
    (if c = t then v.map (fun q => -q) else v) :: negRow cs vs t

/-- `self.data[name] *= -1`: sign-invert a named column of the aggregate,
KeyError when the column does not exist. -/
def negateCol (w : WideTable) (c : String) : Except Err WideTable :=
  if c ∈ w.cols then
    .ok ⟨w.index, w.cols, w.vals.map (fun row => negRow w.cols row c)⟩
  else
    .error (.keyError c)

/-- The polarity-correction loop shared by `index_data` and `test_stability`:
for every owned indicator declared "more is better" (`more_is_worse` false),
sign-invert its column of the aggregate table. -/
def polarityLoop : List Indicator → WideTable → Except Err WideTable
  | [], w => .ok w
  | i :: rest, w =>
    if i.more_is_worse then polarityLoop rest w
    else do
      let w' ← negateCol w i.indicator_name
      polarityLoop rest w'

/-- The polarity-correction phase on an Index: run `polarityLoop` over the
cached aggregate.  Without a wide aggregate the column assignment of the
source has nothing meaningful to index and fails. -/
def polarityFlip (idx : Index) : Except Err Index :=
  match idx.data with
  | some (.table w) => do
    let w' ← polarityLoop (allIndicators idx) w
    return { idx with data := some (.table w') }
  | _ => .error (.runtimeError "polarity correction needs a wide table")

/-- The summarization phase of `index_data`:
`self.data = self.data.mean(axis=1).sort_values(ascending=False)`. -/
def summarizeStep (idx : Index) : Except Err Index :=
  match idx.data with
  | some (.table w) =>
    .ok { idx with data := some (.series (sort_values_desc (meanSeries w))) }
  | _ => .error (.runtimeError "mean(axis=1) needs a wide table")

/-- `Index.index_data` (src lines 145-171): rescale every indicator, impute
over the aggregate, sign-invert the "more is better" columns, and, when
`summarised`, collapse to the sorted row-mean Series.  The source defaults
are scaler "quantile" and method "knn" with n_neighbors 15. -/
def Index.index_data (env : SklEnv) (idx : Index)
    (scaler_name : String) (method : String) (summarised : Bool) :
    Except Err Index := do
  let s1 ← idx.rescale env scaler_name
  let s2 ← s1.impute_missing_data env method
  let s3 ← polarityFlip s2
  if summarised then summarizeStep s3 else return s3

/-- Minimum of a named column's non-null entries (`data[c].min()`). -/
def colMinW (w : WideTable) (c : String) : Option ℚ :=
  listMin ((getCol w c).filterMap id)

/-- Maximum of a named column's non-null entries (`data[c].max()`). -/
def colMaxW (w : WideTable) (c : String) : Option ℚ :=
  listMax ((getCol w c).filterMap id)

/-- The "minimum possible score" of `rescale_index`: the mean of the
column minima. -/
def min_score (w : WideTable) : Option ℚ :=
  oDiv (oSum (w.cols.map (colMinW w))) (some (w.cols.length : ℚ))

/-- The "maximum possible score" of `rescale_index`: the mean of the
column maxima. -/
def max_score (w : WideTable) : Option ℚ :=
  oDiv (oSum (w.cols.map (colMaxW w))) (some (w.cols.length : ℚ))

/-- `Index.rescale_index` (src lines 279-297): anchor at the mean of column
minima and maxima, take the row means sorted descending, shift every score by
the absolute value of the minimum anchor, scale by 100 over the anchor range
and round to one decimal.  An Index without a cached wide aggregate has no
columns to anchor on; an empty column list would divide by zero in
`sum(...) / len(...)`. -/
def Index.rescale_index (idx : Index) : Except Err Table :=
  match idx.data with
  | some (.table w) =>
    if w.cols.isEmpty then
      .error (.runtimeError "mean of an empty list of column scores")
    else
      let mn := min_score w
      let range_ := oSub (max_score w) mn
      .ok ((sort_values_desc (meanSeries w)).map (fun p =>
        (p.1, oRound1 (oDiv (oMul (oAdd p.2 (oAbs mn)) (some 100)) range_))))
  | _ => .error (.runtimeError "rescale_index needs a wide aggregate")

/-- The score formula exactly as claim C4 states it, written from the spec's
words for comparison with `Index.rescale_index`: for each country,
100 * (m - min_score) / (max_score - min_score) rounded to one decimal,
where m is the country's row mean. -/
def rescale_index_claimed (w : WideTable) : Table :=
  let mn := min_score w
  let range_ := oSub (max_score w) mn
  (sort_values_desc (meanSeries w)).map (fun p =>
    (p.1, oRound1 (oDiv (oMul (oSub p.2 mn) (some 100)) range_)))

/-- State effect of `Index.tune_neighbors` (src lines 97-143) on the
canonical Index: the method's first statement rescales `self` in place; every
perturbation trial (sampling 5% missingness, kNN re-imputation) then runs on
`copy.deepcopy(self)` inside `__neighbours_test`, and only contributes to the
returned float, whose value depends on random sampling and the kNN kernel and
is not modelled. -/
def Index.tune_neighbors_state (env : SklEnv) (idx : Index)
    (scaler_name : String) : Except Err Index :=
  idx.rescale env scaler_name

/-- State effect of `Index.test_stability` (src lines 194-277) on the
canonical Index: the perturbation (nulling the sampled countries' raw values
and re-imputing them by income level) happens on `copy.deepcopy(self)`, but
the baseline ranking is computed by rescaling, imputing and polarity-flipping
`self` in place (src lines 246-254).  The random country sample, the
perturbed copy and the returned rank-displacement frame are read-only with
respect to `self` and are not modelled. -/
def Index.test_stability_state (env : SklEnv) (idx : Index)
    (scaler_name method : String) : Except Err Index := do
  let s1 ← idx.rescale env scaler_name
  let s2 ← s1.impute_missing_data env method
  polarityFlip s2

/-! ### Outlier tests (src/index/data/summary.py) -/

/-- `__iqr_test` (src lines 226-236): flag the values strictly outside
[q25 - 1.5 IQR, q75 + 1.5 IQR].  pandas `quantile` drops NaN; comparisons
against NaN are false, so null entries are never flagged. -/
def iqrTest (series : List (Option ℚ)) : List Bool :=
  let xs := series.filterMap id
  match quantileInterp xs (1 / 4), quantileInterp xs (3 / 4) with
  | some q25, some q75 =>
    let iqr := q75 - q25
    series.map (fun v =>
      match v with
      | none => false
      | some x => decide (x < q25 - iqr * (3 / 2)) ||
                  decide (q75 + iqr * (3 / 2) < x))
  | _, _ => series.map (fun _ => false)

/-- The AVAILABLE_METHODS registry of outlier tests; the empirical
three-sigma rule needs a standard deviation and lives in the environment. -/
def AVAILABLE_METHODS (env : SklEnv) :
    List (String × (List (Option ℚ) → List Bool)) :=
  [("empirical", env.sigmaTest), ("inter_quartile_range", iqrTest)]

/-- Keep the rows selected by a boolean mask (pandas `df[mask]`). -/
def maskFilter (df : Table) (mask : List Bool) : Table :=
  ((df.zip mask).filter (fun p => p.2)).map (·.1)

/-- `_get_outliers` (src lines 243-269) in its `cluster_col=None` form:
validate the method name, apply the test to the value column and keep the
flagged rows.  The clustered form partitions by an external country
classification (an out-of-scope collaborator) before applying the same
test per group. -/
def getOutliers (env : SklEnv) (df : Table) (method : String) :
    Except Err Table :=
  match List.lookup method (AVAILABLE_METHODS env) with
  | none => .error (.runtimeError (method ++ ": invalid method"))
  | some f => .ok (maskFilter df (f (df.map (·.2))))

/-- A concrete environment used to instantiate closed statements; the claims
settled below never depend on the behavior of these float kernels. -/
def stubEnv : SklEnv :=
  ⟨id, id, id, (fun w => w.vals), (fun w => w.vals),
   (fun l => l.map (fun _ => false))⟩

/-! ### Order facts for the descending sort -/

instance descPairLe.isTotal : IsTotal (String × Option ℚ) descPairLe := by
  constructor
  intro a b
  cases ha : a.2 <;> cases hb : b.2 <;>
    simp [descPairLe, descValLe, ha, hb, le_total]

instance descPairLe.isTrans : IsTrans (String × Option ℚ) descPairLe := by
  constructor
  intro a b c hab hbc
  cases ha : a.2 <;> cases hb : b.2 <;> cases hc : c.2 <;>
    simp_all [descPairLe, descValLe]
  exact le_trans hbc hab

/-! ### Concrete fixtures used by the witnesses and counterexamples -/

/-- C1 fixture: a one-dimension, one-indicator Index with raw values 0 and 2
and no caches populated. -/
def c1ind : Indicator := ⟨[("AAA", some 0), ("BBB", some 2)], "a", true, none, none⟩

/-- C1 fixture: the canonical Index before the diagnostic call. -/
def c1idx : Index := ⟨[⟨[c1ind], none, none⟩], none⟩

/-- C1 fixture: the same Index after `tune_neighbors` rescaled it in place
with the min-max scaler. -/
def c1idxAfter : Index :=
  ⟨[⟨[⟨[("AAA", some 0), ("BBB", some 2)], "a", true,
        some [("AAA", some 0), ("BBB", some 1)], none⟩], none, none⟩], none⟩

/-- C1 fixture: the wide aggregate the pipeline builds from the rescaled
Index. -/
def c1wStab : WideTable := ⟨["AAA", "BBB"], ["a"], [[some 0], [some 1]]⟩

/-- C1 fixture: the canonical Index after `test_stability` rescaled it,
imputed it (median, a no-op here) and ran the polarity loop (no flip: the
indicator is "more is worse"). -/
def c1idxStab : Index :=
  ⟨[⟨[⟨[("AAA", some 0), ("BBB", some 2)], "a", true,
        some [("AAA", some 0), ("BBB", some 1)], none⟩], none,
     some (.wide c1wStab)⟩], some (.table c1wStab)⟩

/-- C2 fixture: a "more is worse" indicator. -/
def c2ind1 : Indicator := ⟨[("AAA", some 0), ("BBB", some 1)], "a", true, none, none⟩

/-- C2 fixture: a "more is better" indicator, whose column `index_data` must
sign-invert. -/
def c2ind2 : Indicator := ⟨[("AAA", some 1), ("BBB", some 0)], "b", false, none, none⟩

/-- C2 fixture: a one-dimension Index over the two indicators. -/
def c2idx : Index := ⟨[⟨[c2ind1, c2ind2], none, none⟩], none⟩

/-- C2 fixture: the rescaled indicator a (min-max is the identity on
values 0 and 1). -/
def c2ind1s : Indicator :=
  ⟨[("AAA", some 0), ("BBB", some 1)], "a", true,
   some [("AAA", some 0), ("BBB", some 1)], none⟩

/-- C2 fixture: the rescaled indicator b. -/
def c2ind2s : Indicator :=
  ⟨[("AAA", some 1), ("BBB", some 0)], "b", false,
   some [("AAA", some 1), ("BBB", some 0)], none⟩

/-- C2 fixture: the Index after the rescale phase. -/
def c2rescaled : Index := ⟨[⟨[c2ind1s, c2ind2s], none, none⟩], none⟩

/-- C2 fixture: the wide aggregate the pivot builds. -/
def c2w : WideTable :=
  ⟨["AAA", "BBB"], ["a", "b"], [[some 0, some 1], [some 1, some 0]]⟩

/-- C2 fixture: the Index after the impute phase (median, a no-op on a table
without nulls). -/
def c2s2 : Index :=
  ⟨[⟨[c2ind1s, c2ind2s], none, some (.wide c2w)⟩], some (.table c2w)⟩

/-- C2 fixture: the aggregate after polarity correction — column b ("more is
better") sign-inverted. -/
def c2w3 : WideTable :=
  ⟨["AAA", "BBB"], ["a", "b"], [[some 0, some (-1)], [some 1, some 0]]⟩

/-- C2 fixture: the Index after the polarity phase. -/
def c2s3 : Index :=
  ⟨[⟨[c2ind1s, c2ind2s], none, some (.wide c2w)⟩], some (.table c2w3)⟩

/-- C2 fixture: the final summarized Index: row means sorted descending,
worst country first. -/
def c2fin : Index :=
  ⟨[⟨[c2ind1s, c2ind2s], none, some (.wide c2w)⟩],
   some (.series [("BBB", some (1 / 2)), ("AAA", some (-(1 / 2)))])⟩

/-- C3 fixture: a source table with one valid and one invalid iso code. -/
def c3src : SrcTable := ⟨["iso_code", "value"], ["AAA", "XXX"], [some 5, some 7]⟩

/-- C3 fixture: the fixed country universe of the constructed Indicator. -/
def c3cl : List String := ["AAA", "BBB", "CCC"]

/-- C3 fixture: the valid-ISO universe. -/
def c3valid : List String := ["AAA", "BBB", "CCC"]

/-- C3 fixture: the Indicator the constructor produces. -/
def c3ind : Indicator :=
  ⟨[("AAA", some 5), ("BBB", none), ("CCC", none)], "ind3", true, none, some c3cl⟩

/-- C4 fixture: a one-column aggregate whose column minimum is positive, so
that the shift by `abs(min_score)` differs from a subtraction of
`min_score`. -/
def c4w : WideTable := ⟨["AAA", "BBB"], ["x"], [[some 1], [some 3]]⟩

/-- C4 fixture: an Index carrying that aggregate. -/
def c4idx : Index := ⟨[], some (.table c4w)⟩

/-- C5 fixture: a table whose column v is entirely null while column u has a
null to fill. -/
def c5w : WideTable :=
  ⟨["AAA", "BBB", "CCC"], ["u", "v"],
   [[some 1, none], [some 2, none], [none, none]]⟩

/-- C5 fixture: the table `sklImputer` produces for `c5w` with the median
kernel: the all-null column v is reattached in front, unchanged, and the null
in column u is filled with the median 3/2 of {1, 2}. -/
def c5out : WideTable :=
  ⟨["AAA", "BBB", "CCC"], ["v", "u"],
   [[none, some 1], [none, some 2], [none, some (3 / 2)]]⟩

/-- C6 fixture: a wide table sitting in a Dimension cache. -/
def c6w : WideTable := ⟨["AAA"], ["x"], [[some 1]]⟩

/-- C6 fixture: a Dimension with a populated cache. -/
def c6dim : Dimension := ⟨[], none, some (.wide c6w)⟩

/-- C6 fixture: a Dimension with an empty cache, for the amended theorem's
error and memoization parts. -/
def c6dim0 : Dimension := ⟨[], none, none⟩

/-- C6 fixture: the Dimension produced by a first long-orientation read of
the empty-cache fixture. -/
def c6dimL : Dimension := ⟨[], none, some (.long [])⟩

/-- C6 fixture: a cached wide table holding a null to be imputed. -/
def c6wN : WideTable := ⟨["AAA", "BBB"], ["x"], [[some 1], [none]]⟩

/-- C6 fixture: a Dimension caching that table. -/
def c6dimN : Dimension := ⟨[], none, some (.wide c6wN)⟩

/-- C6 fixture: the cached table after median imputation filled the null. -/
def c6wN2 : WideTable := ⟨["AAA", "BBB"], ["x"], [[some 1], [some 1]]⟩

/-- C6 fixture: the Dimension after `impute_missing_data` replaced its
cache. -/
def c6dimN2 : Dimension := ⟨[], none, some (.wide c6wN2)⟩

/-- C7 fixture: an arbitrary Indicator. -/
def c7ind : Indicator := ⟨[("AAA", some 1)], "i7", true, none, none⟩

/-- C7 fixture: an arbitrary Index. -/
def c7idx : Index := ⟨[], none⟩

/-- C8 fixture: a source table lacking the value column. -/
def c8src : SrcTable := ⟨["iso_code"], ["AAA"], [some 1]⟩

/-- C9 fixture: the spec's outlier scenario, values [1, 1, 1, 1, 100]. -/
def c9df : Table :=
  [("A", some 1), ("B", some 1), ("C", some 1), ("D", some 1), ("E", some 100)]

/-- C10 fixture: an Indicator rescaled twice in the witness. -/
def c10ind : Indicator := ⟨[("AAA", some 0), ("BBB", some 2)], "i10", true, none, none⟩

/-- The effect of a found-scaler rescale on one Indicator: the working table
(the rescaled data if a rescale happened before, else the raw copy) is
replaced by its transform; nothing else changes. -/
def scaleInd (f : Table → Table) (i : Indicator) : Indicator :=
  { i with data := some (f (i.data.getD i.raw_data)) }

/-- The effect of a found-scaler rescale on one Dimension. -/
def scaleDim (f : Table → Table) (d : Dimension) : Dimension :=
  { d with indicators := d.indicators.map (scaleInd f) }

/-! ### Shared lemmas -/

theorem ok_bind {a b : Type} (v : a) (k : a → Except Err b) :
    (Except.ok v >>= k) = k v := rfl

theorem lookup_eq_none_of_keys {b : Type} (l : List (String × b)) (k : String)
    (h : k ∉ l.map Prod.fst) : List.lookup k l = none := by
  induction l with
  | nil => rfl
  | cons a t ih =>
    simp only [List.map_cons, List.mem_cons] at h
    push_neg at h
    obtain ⟨a1, a2⟩ := a
    simp only [List.lookup_cons]
    rw [show (k == a1) = false from beq_eq_false_iff_ne.mpr h.1]
    exact ih h.2

theorem lookup_mem {b : Type} {l : List (String × b)} {k : String} {v : b}
    (h : List.lookup k l = some v) : (k, v) ∈ l := by
  induction l with
  | nil => simp [List.lookup] at h
  | cons a t ih =>
    obtain ⟨a1, a2⟩ := a
    rw [List.lookup_cons] at h
    by_cases hk : k = a1
    · subst hk
      simp only [beq_self_eq_true] at h
      simp at h
      subst h
      exact List.mem_cons_self _ _
    · rw [show (k == a1) = false from beq_eq_false_iff_ne.mpr hk] at h
      exact List.mem_cons_of_mem _ (ih h)

theorem indicator_rescale_ok (env : SklEnv) (i : Indicator) (n : String)
    (f : Table → Table) (hf : List.lookup n (SCALERS env) = some f) :
    i.rescale env n = .ok (scaleInd f i) := by
  cases hd : i.data <;>
    simp [Indicator.rescale, Indicator.get_data, hf, hd, scaleInd]

theorem rescaleIndicators_ok (env : SklEnv) (n : String) (f : Table → Table)
    (hf : List.lookup n (SCALERS env) = some f) (l : List Indicator) :
    rescaleIndicators env n l = .ok (l.map (scaleInd f)) := by
  induction l with
  | nil => rfl
  | cons i t ih =>
    simp [rescaleIndicators, indicator_rescale_ok env i n f hf, ih, ok_bind]

theorem dimension_rescale_ok (env : SklEnv) (n : String) (f : Table → Table)
    (hf : List.lookup n (SCALERS env) = some f) (d : Dimension) :
    d.rescale env n = .ok (scaleDim f d) := by
  simp [Dimension.rescale, rescaleIndicators_ok env n f hf d.indicators,
    ok_bind, scaleDim]

theorem rescaleDimensions_ok (env : SklEnv) (n : String) (f : Table → Table)
    (hf : List.lookup n (SCALERS env) = some f) (l : List Dimension) :
    rescaleDimensions env n l = .ok (l.map (scaleDim f)) := by
  induction l with
  | nil => rfl
  | cons d t ih =>
    simp [rescaleDimensions, dimension_rescale_ok env n f hf d, ih, ok_bind]

theorem index_rescale_ok (env : SklEnv) (n : String) (f : Table → Table)
    (hf : List.lookup n (SCALERS env) = some f) (idx : Index) :
    idx.rescale env n =
      .ok { idx with dimensions := idx.dimensions.map (scaleDim f) } := by
  simp [Index.rescale, rescaleDimensions_ok env n f hf idx.dimensions, ok_bind]

theorem allIndicators_map_dims (g : Indicator → Indicator) (dims : List Dimension)
    (dat dat2 : Option IdxData) :
    allIndicators ⟨dims.map (fun d => { d with indicators := d.indicators.map g }), dat⟩ =
      (allIndicators ⟨dims, dat2⟩).map g := by
  induction dims with
  | nil => rfl
  | cons d t ih =>
    simp only [List.map_cons, allIndicators, List.foldr_cons] at *
    rw [List.map_append, ih]

theorem allIndicators_scaleDim (f : Table → Table) (dims : List Dimension)
    (dat dat2 : Option IdxData) :
    allIndicators ⟨dims.map (scaleDim f), dat⟩ =
      (allIndicators ⟨dims, dat2⟩).map (scaleInd f) := by
  simpa only [scaleDim] using
    allIndicators_map_dims (scaleInd f) dims dat dat2

/-! ### Claim theorems -/

/-- C7: requesting a scaler name absent from the SCALERS registry or an
imputer method absent from the IMPUTERS registry fails immediately — the
model returns the error before any object is updated, matching the source
where the membership check precedes every assignment — and the raised error
carries the registered names (the source interpolates `SCALERS.keys()` /
`IMPUTERS.keys()` into the message). -/
theorem c7_unknown_transform_fail_fast (env : SklEnv) (i : Indicator)
    (idx : Index) (n m : String)
    (hn : n ∉ SCALER_NAMES) (hm : m ∉ IMPUTER_NAMES) :
    i.rescale env n = .error (.unknownScaler n SCALER_NAMES) ∧
    idx.impute_missing_data env m = .error (.unknownImputer m IMPUTER_NAMES) := by
  constructor
  · have h : List.lookup n (SCALERS env) = none :=
      lookup_eq_none_of_keys _ _ (by simpa [SCALERS, SCALER_NAMES] using hn)
    simp [Indicator.rescale, h]
  · have h : List.lookup m (IMPUTERS env) = none :=
      lookup_eq_none_of_keys _ _ (by simpa [IMPUTERS, IMPUTER_NAMES] using hm)
    simp [Index.impute_missing_data, h]

/-- C7 witness: the unregistered names "nope" and "never" on concrete
objects. -/
theorem c7_witness :
    c7ind.rescale stubEnv "nope" = .error (.unknownScaler "nope" SCALER_NAMES) ∧
    c7idx.impute_missing_data stubEnv "never" =
      .error (.unknownImputer "never" IMPUTER_NAMES) :=
  c7_unknown_transform_fail_fast stubEnv c7ind c7idx "nope" "never"
    (by decide) (by decide)

/-- C8: Indicator construction fails exactly when the source table lacks one
of the required columns iso_code and value, or an iso code appears in more
than one row; in every other case construction succeeds. -/
theorem c8_construction_error_iff (src : SrcTable) (name : String)
    (miw : Bool) (cl : Option (List String)) (valid : List String) :
    (∃ e, mkIndicator src name miw cl valid = .error e) ↔
      (¬ ("iso_code" ∈ src.cols ∧ "value" ∈ src.cols) ∨ ¬ src.iso.Nodup) := by
  have hreq : (∀ c ∈ REQUIRED_COLS, c ∈ src.cols) ↔
      ("iso_code" ∈ src.cols ∧ "value" ∈ src.cols) := by
    simp [REQUIRED_COLS]
  rw [mkIndicator]
  by_cases h1 : ∀ c ∈ REQUIRED_COLS, c ∈ src.cols
  · rw [if_neg (by simpa using h1)]
    by_cases h2 : src.iso.Nodup
    · rw [if_neg (by simpa using h2)]
      constructor
      · intro ⟨e, he⟩
        exact Except.noConfusion he
      · intro h
        rcases h with h | h
        · exact absurd (hreq.mp h1) h
        · exact absurd h2 h
    · rw [if_pos (by simpa using h2)]
      exact ⟨fun _ => Or.inr h2, fun _ => ⟨_, rfl⟩⟩
  · rw [if_pos (by simpa using h1)]
    exact ⟨fun _ => Or.inl (fun h => h1 (hreq.mpr h)), fun _ => ⟨_, rfl⟩⟩

/-- C8 witness: a source table missing the value column is rejected. -/
theorem c8_witness :
    ∃ e, mkIndicator c8src "i8" true none [] = .error e :=
  (c8_construction_error_iff c8src "i8" true none []).mpr (by decide)

/-- C9: on the value series [1, 1, 1, 1, 100] the 1.5 IQR outlier test flags
exactly the row with value 100 (q25 = q75 = 1, IQR = 0, so only values
strictly outside [1, 1] are flagged). -/
theorem c9_iqr_outlier_scenario :
    getOutliers stubEnv c9df "inter_quartile_range" = .ok [("E", some 100)] := by
  have hl : List.lookup "inter_quartile_range" (AVAILABLE_METHODS stubEnv) =
      some iqrTest := by rfl
  rw [getOutliers, hl]
  have hq : List.insertionSort (α := ℚ) (· ≤ ·) [1, 1, 1, 1, 100] =
      [1, 1, 1, 1, 100] := by
    norm_num [List.insertionSort, List.orderedInsert]
  have h25 : quantileInterp [1, 1, 1, 1, 100] (1 / 4) = some 1 := by
    rw [quantileInterp, hq]
    norm_num [List.getD, Int.toNat]
  have h75 : quantileInterp [1, 1, 1, 1, 100] (3 / 4) = some 1 := by
    rw [quantileInterp, hq]
    norm_num [List.getD, Int.toNat]
  have hmap : c9df.map (fun p => p.2) =
      [some 1, some 1, some 1, some 1, some 100] := by
    norm_num [c9df]
  have hfm : List.filterMap id
      [some (1 : ℚ), some 1, some 1, some 1, some 100] = [1, 1, 1, 1, 100] := by
    simp [List.filterMap_cons]
  show Except.ok (maskFilter c9df (iqrTest (c9df.map (fun p => p.2)))) = _
  rw [hmap]
  have hiqr : iqrTest [some 1, some 1, some 1, some 1, some 100] =
      [false, false, false, false, true] := by
    simp only [iqrTest, hfm, h25, h75]
    norm_num
  rw [hiqr]
  norm_num [maskFilter, c9df, List.filter]

/-- C10: a second rescale transforms the already-rescaled working table, so
two rescales compose; and a rescale of an indicator whose working copy is
populated depends only on that copy and keeps `raw_data` unchanged. -/
theorem c10_rescale_composes (env : SklEnv) (i : Indicator) (n1 n2 : String)
    (f1 f2 : Table → Table)
    (h1 : List.lookup n1 (SCALERS env) = some f1)
    (h2 : List.lookup n2 (SCALERS env) = some f2) :
    (i.rescale env n1 >>= fun j => j.rescale env n2) =
      .ok { i with data := some (f2 (f1 (i.data.getD i.raw_data))) } ∧
    ∀ (j : Indicator) (d : Table), j.data = some d →
      j.rescale env n2 = .ok { j with data := some (f2 d) } := by
  constructor
  · rw [indicator_rescale_ok env i n1 f1 h1, ok_bind,
      indicator_rescale_ok env _ n2 f2 h2]
    simp [scaleInd]
  · intro j d hd
    rw [indicator_rescale_ok env j n2 f2 h2]
    simp [scaleInd, hd]

/-- C10 witness: min-max then max-abs on a concrete indicator. -/
theorem c10_witness :
    (c10ind.rescale stubEnv "minmax" >>= fun j => j.rescale stubEnv "maxabs") =
      .ok { c10ind with data := some (skl_maxabs_scaler (skl_minmax_scaler (c10ind.data.getD c10ind.raw_data))) } :=
  (c10_rescale_composes stubEnv c10ind "minmax" "maxabs"
    skl_minmax_scaler skl_maxabs_scaler rfl rfl).1

/-- C6 counterexample: a Dimension with a cached table returns the cache for
the orientation "diagonal" — outside {wide, long} — instead of raising an
invalid-orientation error, and ignores the wide-plus-date conflict as well:
the cache check of the source sits before every validation. -/
theorem c6_counterexample :
    c6dim.get_data "diagonal" true = .ok (c6dim, .wide c6w) := rfl

/-- C6 amended: the invalid-orientation and wide-plus-date failures occur
exactly when no table is cached; once a table is cached every later
`get_data` call returns it unchanged whatever its arguments; a computed table
is memoized into the cache; `impute_missing_data` replaces the cache with the
imputer's output on the current wide table, but `rescale` leaves the
Dimension's cache untouched (it does not invalidate). -/
theorem c6_get_data_cache_amended :
    (∀ (d : Dimension) (orient : String) (wd : Bool), d.data = none →
       orient ≠ "wide" → orient ≠ "long" →
       d.get_data orient wd = .error (.invalidOrientation orient)) ∧
    (∀ d : Dimension, d.data = none →
       d.get_data "wide" true = .error .wideWithDate) ∧
    (∀ (d : Dimension) (t : DimTable) (orient : String) (wd : Bool),
       d.data = some t → d.get_data orient wd = .ok (d, t)) ∧
    (∀ (d d2 : Dimension) (t : DimTable) (orient : String) (wd : Bool),
       d.get_data orient wd = .ok (d2, t) → d2.data = some t) ∧
    (∀ (env : SklEnv) (d d2 : Dimension) (n : String),
       d.rescale env n = .ok d2 → d2.data = d.data) ∧
    (∀ (env : SklEnv) (d d2 : Dimension) (m : String),
       d.impute_missing_data env m = .ok d2 →
       ∃ (f : WideTable → Except Err WideTable) (d1 : Dimension)
         (w w2 : WideTable),
         List.lookup m (IMPUTERS env) = some f ∧
         d.get_data "wide" false = .ok (d1, .wide w) ∧
         f w = .ok w2 ∧
         d2 = { d1 with data := some (.wide w2) }) := by
  refine ⟨?_, ?_, ?_, ?_, ?_, ?_⟩
  · intro d orient wd hd ho hl
    simp [Dimension.get_data, hd, ho, hl]
  · intro d hd
    simp [Dimension.get_data, hd]
  · intro d t orient wd hd
    simp [Dimension.get_data, hd]
  · intro d d2 t orient wd h
    cases hd : d.data with
    | some t0 =>
      rw [Dimension.get_data, hd] at h
      obtain ⟨h1, h2⟩ := Prod.mk.inj (Except.ok.inj h)
      rw [← h1, hd, h2]
    | none =>
      rw [Dimension.get_data, hd] at h
      by_cases hw : orient = "wide"
      · rw [if_pos hw] at h
        by_cases hdt : wd
        · rw [if_pos hdt] at h
          exact Except.noConfusion h
        · rw [if_neg hdt] at h
          cases hp : pivotLong (buildLong d.indicators).2 with
          | ok w =>
            rw [hp] at h
            simp only [ok_bind] at h
            obtain ⟨h1, h2⟩ := Prod.mk.inj (Except.ok.inj h)
            rw [← h1, ← h2]
          | error e =>
            rw [hp] at h
            exact Except.noConfusion h
      · rw [if_neg hw] at h
        by_cases hl : orient = "long"
        · rw [if_pos hl] at h
          obtain ⟨h1, h2⟩ := Prod.mk.inj (Except.ok.inj h)
          rw [← h1, ← h2]
        · rw [if_neg hl] at h
          exact Except.noConfusion h
  · intro env d d2 n h
    cases hri : rescaleIndicators env n d.indicators with
    | ok l =>
      rw [Dimension.rescale, hri] at h
      simp only [ok_bind] at h
      obtain h1 := Except.ok.inj h
      rw [← h1]
    | error e =>
      rw [Dimension.rescale, hri] at h
      exact Except.noConfusion h
  · intro env d d2 m h
    rw [Dimension.impute_missing_data] at h
    cases hl : List.lookup m (IMPUTERS env) with
    | none =>
      rw [hl] at h
      exact Except.noConfusion h
    | some f =>
      rw [hl] at h
      cases hg : d.get_data "wide" false with
      | error e =>
        rw [hg] at h
        exact Except.noConfusion h
      | ok p =>
        rw [hg] at h
        simp only [ok_bind] at h
        obtain ⟨d1, t⟩ := p
        cases t with
        | long rows => exact Except.noConfusion h
        | wide w =>
          simp only at h
          cases hfw : f w with
          | error e =>
            rw [hfw] at h
            exact Except.noConfusion h
          | ok w2 =>
            rw [hfw] at h
            simp only [ok_bind] at h
            exact ⟨f, d1, w, w2, rfl, rfl, hfw, (Except.ok.inj h).symm⟩

/-- C6 witness: the amended behaviour at concrete Dimensions — both error
cases on an uncached Dimension, the cache bypass, the memoized long read, a
rescale that leaves the cache in place, and a median impute run that
replaces the cache with the null-filled table. -/
theorem c6_witness :
    c6dim0.get_data "diagonal" false = .error (.invalidOrientation "diagonal") ∧
    c6dim0.get_data "wide" true = .error .wideWithDate ∧
    c6dim.get_data "long" false = .ok (c6dim, .wide c6w) ∧
    c6dimL.data = some (.long []) ∧
    c6dim.data = c6dim.data ∧
    c6dimN.impute_missing_data stubEnv "median" = .ok c6dimN2 ∧
    c6dimN2.data = some (.wide c6wN2) ∧
    c6dimN2.data ≠ c6dimN.data := by
  have hker : fillKernel medianQ
      (selectCols c6wN (c6wN.cols.filter (fun c => ! allNullCol c6wN c))) =
      [[some 1], [some 1]] := by
    norm_num [fillKernel, selectCols, c6wN, allNullCol, getCol, cellAt,
      colByIdx, medianQ, quantileInterp, List.insertionSort,
      List.orderedInsert, List.filter, List.getD, Int.toNat, List.range,
      List.range.loop, List.filterMap_cons]
  have hskl : sklImputer (fillKernel medianQ) c6wN = .ok c6wN2 := by
    rw [sklImputer, hker]
    norm_num [c6wN, c6wN2, allNullCol, getCol, cellAt, selectCols, hconcat,
      List.filter, hker]
  have him : c6dimN.impute_missing_data stubEnv "median" = .ok c6dimN2 := by
    have hx : c6dimN.impute_missing_data stubEnv "median" =
        (sklImputer (fillKernel medianQ) c6wN >>= fun w2 =>
          pure { c6dimN with data := some (.wide w2) }) := rfl
    rw [hx, hskl, ok_bind]
    rfl
  obtain ⟨f, d1, w, w2, _, _, _, hd2⟩ :=
    c6_get_data_cache_amended.2.2.2.2.2 stubEnv c6dimN c6dimN2 "median" him
  exact ⟨c6_get_data_cache_amended.1 c6dim0 "diagonal" false rfl (by decide)
      (by decide),
    c6_get_data_cache_amended.2.1 c6dim0 rfl,
    c6_get_data_cache_amended.2.2.1 c6dim (.wide c6w) "long" false rfl,
    c6_get_data_cache_amended.2.2.2.1 c6dim0 c6dimL (.long []) "long" false rfl,
    c6_get_data_cache_amended.2.2.2.2.1 stubEnv c6dim c6dim "minmax" rfl,
    him, rfl, by decide⟩

/-- C3: an Indicator constructed with a countries_list of n codes exposes a
working table of exactly n rows, indexed by those codes in that order, with a
null value for every code absent from the source table (and, since the row
labels are exactly the countries_list, source codes outside the list are
dropped). -/
theorem c3_countries_list_axis (src : SrcTable) (name : String) (miw : Bool)
    (cl : List String) (valid : List String) (ind : Indicator)
    (h : mkIndicator src name miw (some cl) valid = .ok ind) :
    (ind.get_data).2.map Prod.fst = cl ∧
    (ind.get_data).2.length = cl.length ∧
    ∀ p ∈ (ind.get_data).2, p.1 ∉ src.iso → p.2 = none := by
  rw [mkIndicator] at h
  by_cases h1 : ∀ c ∈ REQUIRED_COLS, c ∈ src.cols
  swap
  · rw [if_pos (by simpa using h1)] at h
    exact Except.noConfusion h
  rw [if_neg (by simpa using h1)] at h
  by_cases h2 : src.iso.Nodup
  swap
  · rw [if_pos (by simpa using h2)] at h
    exact Except.noConfusion h
  rw [if_neg (by simpa using h2)] at h
  obtain hind := Except.ok.inj h
  subst hind
  simp only [Indicator.get_data]
  refine ⟨?_, ?_, ?_⟩
  · rw [List.map_map]
    simp [Function.comp_def]
  · rw [List.length_map]
  · intro p hp hmem
    obtain ⟨c, hc, hpc⟩ := List.mem_map.mp hp
    rw [← hpc] at hmem ⊢
    simp only
    cases hlk : List.lookup c (keep_only_valid_iso valid (src.iso.zip src.value)) with
    | none => simp [hlk]
    | some v =>
      have hm := lookup_mem hlk
      rw [keep_only_valid_iso] at hm
      have hz := (List.mem_filter.mp hm).1
      exact absurd (List.of_mem_zip hz).1 hmem

/-- C3 witness: a three-country universe over a source containing one valid
in-universe code and one invalid code. -/
theorem c3_witness :
    mkIndicator c3src "ind3" true (some c3cl) c3valid = .ok c3ind ∧
    (c3ind.get_data).2.map Prod.fst = c3cl ∧
    (c3ind.get_data).2.length = c3cl.length :=
  ⟨by decide,
   (c3_countries_list_axis c3src "ind3" true c3cl c3valid c3ind (by decide)).1,
   (c3_countries_list_axis c3src "ind3" true c3cl c3valid c3ind (by decide)).2.1⟩

theorem cellAt_map_self (cs : List String) (f : String → Option ℚ) (c : String) :
    cellAt cs (cs.map f) c = if c ∈ cs then f c else none := by
  induction cs with
  | nil => simp [cellAt]
  | cons c0 rest ih =>
    by_cases h : c0 = c
    · subst h
      simp [cellAt]
    · simp only [List.map_cons, cellAt, if_neg h]
      rw [ih]
      simp [List.mem_cons, Ne.symm h]

theorem cellAt_append_left (cs1 cs2 : List String) (vs1 vs2 : List (Option ℚ))
    (c : String) (hc : c ∈ cs1) (hlen : vs1.length = cs1.length) :
    cellAt (cs1 ++ cs2) (vs1 ++ vs2) c = cellAt cs1 vs1 c := by
  induction cs1 generalizing vs1 with
  | nil => simp at hc
  | cons c0 rest ih =>
    cases vs1 with
    | nil => simp at hlen
    | cons v0 vrest =>
      by_cases h : c0 = c
      · simp [cellAt, h]
      · have hc2 : c ∈ rest := by
          rcases List.mem_cons.mp hc with h2 | h2
          · exact absurd h2.symm h
          · exact h2
        simp only [List.cons_append, cellAt, if_neg h]
        exact ih vrest hc2 (by simpa using hlen)

theorem cellAt_append_right (cs1 cs2 : List String) (vs1 vs2 : List (Option ℚ))
    (c : String) (hc : c ∉ cs1) (hlen : vs1.length = cs1.length) :
    cellAt (cs1 ++ cs2) (vs1 ++ vs2) c = cellAt cs2 vs2 c := by
  induction cs1 generalizing vs1 with
  | nil =>
    cases vs1 with
    | nil => rfl
    | cons _ _ => simp at hlen
  | cons c0 rest ih =>
    cases vs1 with
    | nil => simp at hlen
    | cons v0 vrest =>
      have h : ¬ c0 = c := fun he => hc (he ▸ List.mem_cons_self c0 rest)
      simp only [List.cons_append, cellAt, if_neg h]
      exact ih vrest (fun hm => hc (List.mem_cons_of_mem _ hm)) (by simpa using hlen)

theorem cellAt_mem (cs : List String) (vs : List (Option ℚ)) (c : String)
    (hc : c ∈ cs) (hlen : vs.length = cs.length) : cellAt cs vs c ∈ vs := by
  induction cs generalizing vs with
  | nil => simp at hc
  | cons c0 rest ih =>
    cases vs with
    | nil => simp at hlen
    | cons v0 vrest =>
      by_cases h : c0 = c
      · simp [cellAt, h]
      · have hc2 : c ∈ rest := by
          rcases List.mem_cons.mp hc with h2 | h2
          · exact absurd h2.symm h
          · exact h2
        simp only [cellAt, if_neg h]
        exact List.mem_cons_of_mem _ (ih vrest hc2 (by simpa using hlen))

theorem map_cellAt_zipWith_left (cs1 cs2 : List String) (c : String)
    (hc : c ∈ cs1) (A M : List (List (Option ℚ)))
    (hA : ∀ r ∈ A, r.length = cs1.length) (hlen : A.length = M.length) :
    (List.zipWith (· ++ ·) A M).map (fun row => cellAt (cs1 ++ cs2) row c) =
      A.map (fun r => cellAt cs1 r c) := by
  induction A generalizing M with
  | nil =>
    cases M with
    | nil => rfl
    | cons _ _ => simp at hlen
  | cons r A ih =>
    cases M with
    | nil => simp at hlen
    | cons m M =>
      simp only [List.zipWith_cons_cons, List.map_cons]
      rw [cellAt_append_left cs1 cs2 r m c hc (hA r (List.mem_cons_self r A)),
        ih M (fun r2 hr => hA r2 (List.mem_cons_of_mem _ hr)) (by simpa using hlen)]

theorem map_cellAt_zipWith_right (cs1 cs2 : List String) (c : String)
    (hc : c ∉ cs1) (A M : List (List (Option ℚ)))
    (hA : ∀ r ∈ A, r.length = cs1.length) (hlen : A.length = M.length) :
    (List.zipWith (· ++ ·) A M).map (fun row => cellAt (cs1 ++ cs2) row c) =
      M.map (fun r => cellAt cs2 r c) := by
  induction A generalizing M with
  | nil =>
    cases M with
    | nil => rfl
    | cons _ _ => simp at hlen
  | cons r A ih =>
    cases M with
    | nil => simp at hlen
    | cons m M =>
      simp only [List.zipWith_cons_cons, List.map_cons]
      rw [cellAt_append_right cs1 cs2 r m c hc (hA r (List.mem_cons_self r A)),
        ih M (fun r2 hr => hA r2 (List.mem_cons_of_mem _ hr)) (by simpa using hlen)]

/-- C5: whenever `__skl_imputer` succeeds with a kernel whose imputed matrix
carries no nulls (the behaviour of SimpleImputer, IterativeImputer and
KNNImputer on the all-non-null-column input the wrapper hands them), the
output has the same rows in the same order and the same multiset of columns
as the input, every entirely-null input column appears unchanged — still
entirely null — in the output, and every other column of the output has all
its nulls filled. -/
theorem c5_skl_imputer_frame (K : WideTable → List (List (Option ℚ)))
    (t out : WideTable) (hshape : t.vals.length = t.index.length)
    (hok : sklImputer K t = .ok out)
    (hnn : ∀ row ∈ K (selectCols t (t.cols.filter (fun c => ! allNullCol t c))),
      ∀ v ∈ row, v ≠ none) :
    out.index = t.index ∧
    out.cols.Perm t.cols ∧
    (∀ c ∈ t.cols, allNullCol t c = true →
      getCol out c = getCol t c ∧ ∀ v ∈ getCol out c, v = none) ∧
    (∀ c ∈ t.cols, allNullCol t c = false → ∀ v ∈ getCol out c, v ≠ none) := by
  rw [sklImputer] at hok
  by_cases hcond : (K (selectCols t (t.cols.filter (fun c => ! allNullCol t c)))).length
      = t.index.length ∧
      ∀ row ∈ K (selectCols t (t.cols.filter (fun c => ! allNullCol t c))),
        row.length = (t.cols.filter (fun c => ! allNullCol t c)).length
  swap
  · rw [if_neg hcond] at hok
    exact Except.noConfusion hok
  rw [if_pos hcond] at hok
  obtain hout := (Except.ok.inj hok).symm
  have hA : ∀ r ∈ (selectCols t (t.cols.filter (fun c => allNullCol t c))).vals,
      r.length = (t.cols.filter (fun c => allNullCol t c)).length := by
    intro r hr
    obtain ⟨row, _, hrow⟩ := List.mem_map.mp hr
    rw [← hrow, List.length_map]
  have hAlen : (selectCols t (t.cols.filter (fun c => allNullCol t c))).vals.length
      = (K (selectCols t (t.cols.filter (fun c => ! allNullCol t c)))).length := by
    have h1 : (selectCols t (t.cols.filter (fun c => allNullCol t c))).vals.length
        = t.vals.length := List.length_map _ _
    rw [h1, hshape, hcond.1]
  have hoc : out.cols = t.cols.filter (fun c => allNullCol t c) ++
      t.cols.filter (fun c => ! allNullCol t c) := by
    rw [hout]
    rfl
  have hov : out.vals = List.zipWith (· ++ ·)
      (selectCols t (t.cols.filter (fun c => allNullCol t c))).vals
      (K (selectCols t (t.cols.filter (fun c => ! allNullCol t c)))) := by
    rw [hout]
    rfl
  refine ⟨?_, ?_, ?_, ?_⟩
  · rw [hout]
    rfl
  · rw [hoc]
    exact List.filter_append_perm (fun c => allNullCol t c) t.cols
  · intro c hcm hnull
    have hcam : c ∈ t.cols.filter (fun c => allNullCol t c) :=
      List.mem_filter.mpr ⟨hcm, hnull⟩
    have hgc : getCol out c = getCol t c := by
      rw [getCol, hoc, hov, map_cellAt_zipWith_left _ _ c hcam _ _ hA hAlen,
        getCol]
      simp only [selectCols, List.map_map]
      apply List.map_congr_left
      intro row _
      simp only [Function.comp_apply]
      rw [cellAt_map_self, if_pos hcam]
    refine ⟨hgc, ?_⟩
    intro v hv
    rw [hgc] at hv
    have hvn := (List.all_eq_true.mp hnull) v hv
    simpa using hvn
  · intro c hcm hnull
    have hcko : c ∈ t.cols.filter (fun c => ! allNullCol t c) :=
      List.mem_filter.mpr ⟨hcm, by rw [hnull]; rfl⟩
    have hcam : c ∉ t.cols.filter (fun c => allNullCol t c) := by
      intro hmem
      have hcontra := (List.mem_filter.mp hmem).2
      rw [hnull] at hcontra
      exact Bool.noConfusion hcontra
    intro v hv
    rw [getCol, hoc, hov,
      map_cellAt_zipWith_right _ _ c hcam _ _ hA hAlen] at hv
    obtain ⟨mi, hmi, hvm⟩ := List.mem_map.mp hv
    have hvin : v ∈ mi := by
      rw [← hvm]
      exact cellAt_mem _ mi c hcko (hcond.2 mi hmi)
    exact hnn mi hmi v hvin

/-- C5 witness: the median imputer on a table with an entirely null column v
and one null in column u. -/
theorem c5_witness :
    sklImputer (fillKernel medianQ) c5w = .ok c5out ∧
    c5out.index = c5w.index ∧ c5out.cols.Perm c5w.cols := by
  have hker : fillKernel medianQ
      (selectCols c5w (c5w.cols.filter (fun c => ! allNullCol c5w c))) =
      [[some 1], [some 2], [some (3 / 2)]] := by
    norm_num [fillKernel, selectCols, c5w, allNullCol, getCol, cellAt,
      colByIdx, medianQ, quantileInterp, List.insertionSort,
      List.orderedInsert, List.filter, List.getD, Int.toNat, List.range,
      List.range.loop, List.filterMap_cons]
  have hok : sklImputer (fillKernel medianQ) c5w = .ok c5out := by
    rw [sklImputer, hker]
    norm_num [c5w, c5out, allNullCol, getCol, cellAt, selectCols, hconcat,
      List.filter, hker, (show ¬("u" : String) = "v" by decide)]
  have hnn : ∀ row ∈ fillKernel medianQ
      (selectCols c5w (c5w.cols.filter (fun c => ! allNullCol c5w c))),
      ∀ v ∈ row, v ≠ none := by
    rw [hker]
    intro row hrow v hv
    rcases List.mem_cons.mp hrow with h | h
    · subst h
      simp only [List.mem_singleton] at hv
      subst hv
      exact Option.some_ne_none _
    rcases List.mem_cons.mp h with h2 | h2
    · subst h2
      simp only [List.mem_singleton] at hv
      subst hv
      exact Option.some_ne_none _
    rcases List.mem_cons.mp h2 with h3 | h3
    · subst h3
      simp only [List.mem_singleton] at hv
      subst hv
      exact Option.some_ne_none _
    · simp at h3
  obtain ⟨h1, h2, _, _⟩ :=
    c5_skl_imputer_frame (fillKernel medianQ) c5w c5out rfl hok hnn
  exact ⟨hok, h1, h2⟩

theorem indicator_get_data_some (i : Indicator) (d : Table)
    (h : i.data = some d) : i.get_data = (i, d) := by
  simp [Indicator.get_data, h]

theorem buildLong_populated (inds : List Indicator)
    (h : ∀ i ∈ inds, i.data.isSome) : (buildLong inds).1 = inds := by
  induction inds with
  | nil => rfl
  | cons i rest ih =>
    obtain ⟨d, hd⟩ := Option.isSome_iff_exists.mp (h i (List.mem_cons_self i rest))
    simp [buildLong, indicator_get_data_some i d hd,
      ih (fun j hj => h j (List.mem_cons_of_mem _ hj))]

theorem dimension_get_data_indicators (d d2 : Dimension) (t : DimTable)
    (o : String) (wd : Bool) (h : d.get_data o wd = .ok (d2, t))
    (hp : ∀ i ∈ d.indicators, i.data.isSome) :
    d2.indicators = d.indicators := by
  cases hd : d.data with
  | some t0 =>
    rw [Dimension.get_data, hd] at h
    obtain ⟨h1, _⟩ := Prod.mk.inj (Except.ok.inj h)
    rw [← h1]
  | none =>
    rw [Dimension.get_data, hd] at h
    by_cases hw : o = "wide"
    · rw [if_pos hw] at h
      by_cases hdt : wd
      · rw [if_pos hdt] at h
        exact Except.noConfusion h
      · rw [if_neg hdt] at h
        cases hpv : pivotLong (buildLong d.indicators).2 with
        | ok w =>
          rw [hpv] at h
          simp only [ok_bind] at h
          obtain ⟨h1, _⟩ := Prod.mk.inj (Except.ok.inj h)
          rw [← h1]
          exact buildLong_populated d.indicators hp
        | error e =>
          rw [hpv] at h
          exact Except.noConfusion h
    · rw [if_neg hw] at h
      by_cases hl : o = "long"
      · rw [if_pos hl] at h
        obtain ⟨h1, _⟩ := Prod.mk.inj (Except.ok.inj h)
        rw [← h1]
        exact buildLong_populated d.indicators hp
      · rw [if_neg hl] at h
        exact Except.noConfusion h

theorem assembleWide_indicators (dims : List Dimension) (wd : Bool)
    (dims2 : List Dimension) (acc : Option WideTable)
    (h : assembleWide wd dims = .ok (dims2, acc))
    (hp : ∀ d ∈ dims, ∀ i ∈ d.indicators, i.data.isSome) :
    dims2.map Dimension.indicators = dims.map Dimension.indicators := by
  induction dims generalizing dims2 acc with
  | nil =>
    obtain ⟨h1, _⟩ := Prod.mk.inj (Except.ok.inj h)
    rw [← h1]
  | cons d rest ih =>
    rw [assembleWide] at h
    cases hg : d.get_data "wide" wd with
    | error e =>
      rw [hg] at h
      exact Except.noConfusion h
    | ok p =>
      rw [hg] at h
      simp only [ok_bind] at h
      obtain ⟨d2, t⟩ := p
      cases t with
      | long rows => exact Except.noConfusion h
      | wide w =>
        simp only at h
        cases ha : assembleWide wd rest with
        | error e =>
          rw [ha] at h
          exact Except.noConfusion h
        | ok q =>
          rw [ha] at h
          simp only [ok_bind] at h
          obtain ⟨rest2, acc2⟩ := q
          have hd2 : d2.indicators = d.indicators :=
            dimension_get_data_indicators d d2 (.wide w) "wide" wd hg
              (hp d (List.mem_cons_self d rest))
          have hrest : rest2.map Dimension.indicators =
              rest.map Dimension.indicators :=
            ih rest2 acc2 ha (fun d3 hd3 => hp d3 (List.mem_cons_of_mem _ hd3))
          cases acc2 with
          | none =>
            simp only at h
            obtain ⟨h1, _⟩ := Prod.mk.inj (Except.ok.inj h)
            rw [← h1, List.map_cons, List.map_cons, hd2, hrest]
          | some w2 =>
            simp only at h
            obtain ⟨h1, _⟩ := Prod.mk.inj (Except.ok.inj h)
            rw [← h1, List.map_cons, List.map_cons, hd2, hrest]

theorem allIndicators_of_map_eq (dims dims2 : List Dimension)
    (x y : Option IdxData)
    (h : dims2.map Dimension.indicators = dims.map Dimension.indicators) :
    allIndicators ⟨dims2, x⟩ = allIndicators ⟨dims, y⟩ := by
  induction dims generalizing dims2 with
  | nil =>
    have h2 : dims2 = [] := by
      cases dims2 with
      | nil => rfl
      | cons a b => simp at h
    subst h2
    rfl
  | cons d rest ih =>
    cases dims2 with
    | nil => exact absurd h.symm (by simp)
    | cons d2 rest2 =>
      simp only [List.map_cons, List.cons.injEq] at h
      show d2.indicators ++ allIndicators ⟨rest2, x⟩ =
        d.indicators ++ allIndicators ⟨rest, y⟩
      rw [h.1, ih rest2 h.2]

theorem index_get_data_wide_state (idx idx2 : Index) (wd : Bool) (td : IdxData)
    (h : idx.get_data "wide" wd = .ok (idx2, td))
    (hp : ∀ d ∈ idx.dimensions, ∀ i ∈ d.indicators, i.data.isSome) :
    allIndicators idx2 = allIndicators idx ∧ idx2.data = some td := by
  cases hd : idx.data with
  | some t0 =>
    rw [Index.get_data, hd] at h
    obtain ⟨h1, h2⟩ := Prod.mk.inj (Except.ok.inj h)
    rw [← h1, hd, h2]
    exact ⟨rfl, rfl⟩
  | none =>
    rw [Index.get_data, hd] at h
    simp only [if_pos rfl] at h
    cases ha : assembleWide wd idx.dimensions with
    | error e =>
      rw [ha] at h
      exact Except.noConfusion h
    | ok q =>
      rw [ha] at h
      simp only [ok_bind] at h
      obtain ⟨h1, h2⟩ := Prod.mk.inj (Except.ok.inj h)
      constructor
      · rw [← h1]
        exact allIndicators_of_map_eq idx.dimensions q.1 _ _
          (assembleWide_indicators idx.dimensions wd q.1 q.2 (by rw [ha]) hp)
      · rw [← h1, ← h2]

theorem impute_state (env : SklEnv) (s1 s2 : Index) (me : String)
    (h : s1.impute_missing_data env me = .ok s2)
    (hp : ∀ d ∈ s1.dimensions, ∀ i ∈ d.indicators, i.data.isSome) :
    allIndicators s2 = allIndicators s1 ∧ ∃ w2, s2.data = some (.table w2) := by
  rw [Index.impute_missing_data] at h
  cases hl : List.lookup me (IMPUTERS env) with
  | none =>
    rw [hl] at h
    exact Except.noConfusion h
  | some f =>
    rw [hl] at h
    cases hg : s1.get_data "wide" false with
    | error e =>
      rw [hg] at h
      exact Except.noConfusion h
    | ok p =>
      rw [hg] at h
      simp only [ok_bind] at h
      obtain ⟨idx2, td⟩ := p
      cases td with
      | table w =>
        simp only at h
        cases hf : f w with
        | error e =>
          rw [hf] at h
          exact Except.noConfusion h
        | ok w2 =>
          rw [hf] at h
          simp only [ok_bind] at h
          obtain h1 := Except.ok.inj h
          have hidx := index_get_data_wide_state s1 idx2 false (.table w) hg hp
          constructor
          · rw [← h1]
            exact hidx.1
          · exact ⟨w2, by rw [← h1]⟩
      | longTable rows => exact Except.noConfusion h
      | series s => exact Except.noConfusion h

theorem polarityFlip_state (s2 s3 : Index) (h : polarityFlip s2 = .ok s3) :
    s3.dimensions = s2.dimensions ∧ ∃ w2 w3, s2.data = some (.table w2) ∧
      polarityLoop (allIndicators s2) w2 = .ok w3 ∧
      s3.data = some (.table w3) := by
  cases hd : s2.data with
  | none =>
    rw [polarityFlip, hd] at h
    exact Except.noConfusion h
  | some td =>
    cases td with
    | table w =>
      rw [polarityFlip, hd] at h
      simp only at h
      cases hpl : polarityLoop (allIndicators s2) w with
      | error e =>
        rw [hpl] at h
        exact Except.noConfusion h
      | ok w3 =>
        rw [hpl] at h
        simp only [ok_bind] at h
        obtain h1 := Except.ok.inj h
        exact ⟨by rw [← h1], w, w3, rfl, hpl, by rw [← h1]⟩
    | longTable rows =>
      rw [polarityFlip, hd] at h
      exact Except.noConfusion h
    | series s =>
      rw [polarityFlip, hd] at h
      exact Except.noConfusion h

theorem summarize_state (s3 fin : Index) (h : summarizeStep s3 = .ok fin) :
    ∃ w3, s3.data = some (.table w3) ∧
      fin = { s3 with data := some (.series (sort_values_desc (meanSeries w3))) } := by
  cases hd : s3.data with
  | none =>
    rw [summarizeStep, hd] at h
    exact Except.noConfusion h
  | some td =>
    cases td with
    | table w =>
      rw [summarizeStep, hd] at h
      obtain h1 := Except.ok.inj h
      exact ⟨w, rfl, h1.symm⟩
    | longTable rows =>
      rw [summarizeStep, hd] at h
      exact Except.noConfusion h
    | series s =>
      rw [summarizeStep, hd] at h
      exact Except.noConfusion h

theorem allIndicators_congr (a b : Index) (h : a.dimensions = b.dimensions) :
    allIndicators a = allIndicators b := by
  rw [allIndicators, allIndicators, h]

theorem map_raw_scaleInd (f : Table → Table) (l : List Indicator) :
    (l.map (scaleInd f)).map Indicator.raw_data = l.map Indicator.raw_data := by
  rw [List.map_map]
  apply List.map_congr_left
  intro i _
  rfl

theorem map_data_scaleInd (f : Table → Table) (l : List Indicator) :
    (l.map (scaleInd f)).map Indicator.data =
      l.map (fun i => some (f (i.data.getD i.raw_data))) := by
  rw [List.map_map]
  apply List.map_congr_left
  intro i _
  rfl

theorem map_sig_scaleInd (f : Table → Table) (l : List Indicator) :
    (l.map (scaleInd f)).map (fun i => (i.indicator_name, i.more_is_worse)) =
      l.map (fun i => (i.indicator_name, i.more_is_worse)) := by
  rw [List.map_map]
  apply List.map_congr_left
  intro i _
  rfl

theorem scaled_populated (f : Table → Table) (dims : List Dimension) :
    ∀ d ∈ dims.map (scaleDim f), ∀ i ∈ d.indicators, i.data.isSome := by
  intro d hd i hi
  obtain ⟨d0, _, hd0⟩ := List.mem_map.mp hd
  rw [← hd0] at hi
  obtain ⟨i0, _, hi0⟩ := List.mem_map.mp hi
  rw [← hi0]
  rfl

/-- C1 corrected: the perturbation of the diagnostic operations is indeed
confined to a deep copy — no owned Indicator's `raw_data` changes — but both
operations mutate the canonical Index rather than leaving it unchanged:
`tune_neighbors` rescales every owned Indicator's working table in place
before experimenting on the copy, and `test_stability` additionally imputes
and polarity-corrects the canonical Index to build its baseline ranking,
overwriting the cached aggregate. -/
theorem c1_diagnostics_mutate_canonical (env : SklEnv) (idx t s : Index)
    (n m : String) (f : Table → Table)
    (hf : List.lookup n (SCALERS env) = some f)
    (ht : idx.tune_neighbors_state env n = .ok t)
    (hs : idx.test_stability_state env n m = .ok s) :
    ((allIndicators t).map Indicator.raw_data =
        (allIndicators idx).map Indicator.raw_data ∧
      (allIndicators t).map Indicator.data =
        (allIndicators idx).map (fun i => some (f (i.data.getD i.raw_data))) ∧
      t.data = idx.data) ∧
    ((allIndicators s).map Indicator.raw_data =
        (allIndicators idx).map Indicator.raw_data ∧
      (allIndicators s).map Indicator.data =
        (allIndicators idx).map (fun i => some (f (i.data.getD i.raw_data))) ∧
      ∃ w, s.data = some (.table w)) := by
  rw [Index.tune_neighbors_state, index_rescale_ok env n f hf idx] at ht
  obtain ht2 := Except.ok.inj ht
  have hait : allIndicators t = (allIndicators idx).map (scaleInd f) := by
    rw [← ht2]
    exact allIndicators_scaleDim f idx.dimensions idx.data idx.data
  rw [Index.test_stability_state] at hs
  rw [index_rescale_ok env n f hf idx, ok_bind] at hs
  cases him : Index.impute_missing_data env
      { idx with dimensions := idx.dimensions.map (scaleDim f) } m with
  | error e =>
    rw [him] at hs
    exact Except.noConfusion hs
  | ok s2 =>
    rw [him, ok_bind] at hs
    have hp : ∀ d ∈ ({ idx with dimensions := idx.dimensions.map (scaleDim f) }
        : Index).dimensions, ∀ i ∈ d.indicators, i.data.isSome :=
      scaled_populated f idx.dimensions
    obtain ⟨hai2, _, hw2⟩ := impute_state env _ s2 m him hp
    obtain ⟨hdims, w2, w3, _, _, hdata⟩ := polarityFlip_state s2 s hs
    have hais : allIndicators s = (allIndicators idx).map (scaleInd f) := by
      rw [allIndicators_congr s s2 hdims, hai2,
        allIndicators_scaleDim f idx.dimensions idx.data idx.data]
    refine ⟨⟨?_, ?_, ?_⟩, ?_, ?_, ⟨w3, hdata⟩⟩
    · rw [hait, map_raw_scaleInd]
    · rw [hait, map_data_scaleInd]
    · rw [← ht2]
    · rw [hais, map_raw_scaleInd]
    · rw [hais, map_data_scaleInd]

/-- C1 counterexample: `tune_neighbors` on a concrete Index does not leave
the canonical Index unchanged — its first statement rescales `self`, so the
owned Indicator's working table already differs after the call. -/
theorem c1_counterexample :
    Index.tune_neighbors_state stubEnv c1idx "minmax" = .ok c1idxAfter ∧
    c1idxAfter ≠ c1idx := by
  constructor
  · rw [Index.tune_neighbors_state,
      index_rescale_ok stubEnv "minmax" skl_minmax_scaler rfl c1idx]
    norm_num [c1idx, c1idxAfter, c1ind, scaleDim, scaleInd, skl_minmax_scaler,
      listMin, listMax, List.filterMap_cons]
  · decide

/-- C1 witness: the amended behaviour at the concrete fixture — raw data is
preserved by both diagnostics while the canonical working tables change. -/
theorem c1_witness :
    (allIndicators c1idxAfter).map Indicator.raw_data =
      (allIndicators c1idx).map Indicator.raw_data ∧
    c1idxAfter.data = c1idx.data ∧
    (allIndicators c1idxStab).map Indicator.raw_data =
      (allIndicators c1idx).map Indicator.raw_data := by
  have hres :
      ({ c1idx with dimensions := c1idx.dimensions.map (scaleDim skl_minmax_scaler) } : Index) = c1idxAfter := by
    norm_num [c1idx, c1idxAfter, c1ind, scaleDim, scaleInd, skl_minmax_scaler,
      listMin, listMax, List.filterMap_cons]
  have ht : Index.tune_neighbors_state stubEnv c1idx "minmax" =
      .ok c1idxAfter := by
    rw [Index.tune_neighbors_state,
      index_rescale_ok stubEnv "minmax" skl_minmax_scaler rfl c1idx, hres]
  have hs : Index.test_stability_state stubEnv c1idx "minmax" "median" =
      .ok c1idxStab := by
    rw [Index.test_stability_state,
      index_rescale_ok stubEnv "minmax" skl_minmax_scaler rfl c1idx, ok_bind,
      hres]
    decide
  obtain ⟨⟨h1, _, h3⟩, h4, _, _⟩ :=
    c1_diagnostics_mutate_canonical stubEnv c1idx c1idxAfter c1idxStab
      "minmax" "median" skl_minmax_scaler rfl ht hs
  exact ⟨h1, h3, h4⟩

/-- C4 counterexample: on a one-column aggregate with values 1 and 3 the code
returns 200.0 and 100.0 — it shifts the row mean by `abs(min_score)` = +1 —
while the claimed formula 100 (m - min) / (max - min) gives 100.0 and 0.0. -/
theorem c4_counterexample :
    Index.rescale_index c4idx = .ok [("BBB", some 200), ("AAA", some 100)] ∧
    rescale_index_claimed c4w = [("BBB", some 100), ("AAA", some 0)] ∧
    Index.rescale_index c4idx ≠ .ok (rescale_index_claimed c4w) := by
  have hmean : sort_values_desc (meanSeries c4w) =
      [("BBB", some 3), ("AAA", some 1)] := by
    norm_num [c4w, meanSeries, rowMean, sort_values_desc, List.insertionSort,
      List.orderedInsert, descPairLe, descValLe, List.filterMap_cons]
  have hmn : min_score c4w = some 1 := by
    norm_num [c4w, min_score, colMinW, getCol, cellAt, listMin, oSum, oAdd,
      oDiv, List.filterMap_cons]
  have hmx : max_score c4w = some 3 := by
    norm_num [c4w, max_score, colMaxW, getCol, cellAt, listMax, oSum, oAdd,
      oDiv, List.filterMap_cons]
  have h1 : Index.rescale_index c4idx = .ok [("BBB", some 200), ("AAA", some 100)] := by
    rw [show Index.rescale_index c4idx = (if c4w.cols.isEmpty then .error (.runtimeError "mean of an empty list of column scores") else .ok ((sort_values_desc (meanSeries c4w)).map (fun p => (p.1, oRound1 (oDiv (oMul (oAdd p.2 (oAbs (min_score c4w))) (some 100)) (oSub (max_score c4w) (min_score c4w))))))) from rfl]
    rw [hmean, hmn, hmx]
    norm_num [c4w, oRound1, oDiv, oMul, oAdd, oSub, oAbs, round1,
      roundHalfEven]
  have h2 : rescale_index_claimed c4w = [("BBB", some 100), ("AAA", some 0)] := by
    rw [rescale_index_claimed, hmean, hmn, hmx]
    norm_num [oRound1, oDiv, oMul, oAdd, oSub, round1, roundHalfEven]
  refine ⟨h1, h2, ?_⟩
  rw [h1, h2]
  intro hc
  have hlist := Except.ok.inj hc
  simp at hlist

/-- C4 amended: for a non-empty wide aggregate with well-defined column
anchors, `rescale_index` returns for each country the score
100 (m + |min_score|) / (max_score - min_score) rounded to one decimal, where
m is the country's row mean — a shift by the absolute value of the minimum
anchor, not a subtraction of it; the two coincide exactly when
min_score ≤ 0 (the usual case after a centering rescale), which is the only
change the counterexample forces to the claimed formula. -/
theorem c4_rescale_index_amended (idx : Index) (w : WideTable) (mn mx : ℚ)
    (hd : idx.data = some (.table w))
    (hne : w.cols.isEmpty = false)
    (hmn : min_score w = some mn)
    (hmx : max_score w = some mx) :
    (idx.rescale_index = .ok ((sort_values_desc (meanSeries w)).map (fun p =>
      (p.1, oRound1 (oDiv (oMul (oAdd p.2 (some |mn|)) (some 100))
        (some (mx - mn))))))) ∧
    (∀ iso : String, ∀ q : ℚ,
      (iso, some q) ∈ sort_values_desc (meanSeries w) →
      (iso, some (round1 ((q + |mn|) * 100 / (mx - mn)))) ∈
        (sort_values_desc (meanSeries w)).map (fun p =>
          (p.1, oRound1 (oDiv (oMul (oAdd p.2 (some |mn|)) (some 100))
            (some (mx - mn)))))) ∧
    (mn ≤ 0 → ∀ q : ℚ,
      (q + |mn|) * 100 / (mx - mn) = (q - mn) * 100 / (mx - mn)) := by
  obtain ⟨dims, dat⟩ := idx
  simp only at hd
  subst hd
  refine ⟨?_, ?_, ?_⟩
  · simp only [Index.rescale_index, hne, Bool.false_eq_true, if_false, hmn,
      hmx, oAbs, oSub]
  · intro iso q hmem
    have him := List.mem_map_of_mem (fun p : String × Option ℚ =>
      (p.1, oRound1 (oDiv (oMul (oAdd p.2 (some |mn|)) (some 100))
        (some (mx - mn))))) hmem
    simpa [oAdd, oMul, oDiv, oRound1] using him
  · intro hmn0 q
    rw [abs_of_nonpos hmn0]
    ring

/-- C4 witness: the amended formula at the concrete fixture, with
min_score = 1 and max_score = 3. -/
theorem c4_witness :
    Index.rescale_index c4idx = .ok ((sort_values_desc (meanSeries c4w)).map
      (fun p => (p.1, oRound1 (oDiv (oMul (oAdd p.2 (some |(1 : ℚ)|))
        (some 100)) (some ((3 : ℚ) - 1)))))) :=
  (c4_rescale_index_amended c4idx c4w 1 3 rfl rfl
    (by norm_num [c4w, min_score, colMinW, getCol, cellAt, listMin, oSum,
      oAdd, oDiv, List.filterMap_cons])
    (by norm_num [c4w, max_score, colMaxW, getCol, cellAt, listMax, oSum,
      oAdd, oDiv, List.filterMap_cons])).1

theorem map_name_scaleInd (f : Table → Table) (l : List Indicator) :
    (l.map (scaleInd f)).map Indicator.indicator_name =
      l.map Indicator.indicator_name := by
  rw [List.map_map]
  apply List.map_congr_left
  intro i _
  rfl

theorem cellAt_negRow (cs : List String) (vs : List (Option ℚ))
    (c c2 : String) :
    cellAt cs (negRow cs vs c) c2 =
      if c2 = c then (cellAt cs vs c2).map (fun q => -q)
      else cellAt cs vs c2 := by
  induction cs generalizing vs with
  | nil =>
    cases vs <;> simp [cellAt, negRow, apply_ite]
  | cons c0 rest ih =>
    cases vs with
    | nil =>
      simp [cellAt, negRow, apply_ite]
    | cons v0 vrest =>
      by_cases h0 : c0 = c2
      · subst h0
        by_cases hc : c0 = c
        · subst hc
          simp [cellAt, negRow]
        · simp [cellAt, negRow, hc]
      · by_cases hc : c2 = c
        · subst hc
          simp [cellAt, negRow, h0, ih vrest]
        · simp [cellAt, negRow, h0, hc, ih vrest]

theorem negateCol_state (w w2 : WideTable) (c : String)
    (h : negateCol w c = .ok w2) :
    w2.index = w.index ∧ w2.cols = w.cols ∧
    ∀ c2 : String, getCol w2 c2 =
      if c2 = c then (getCol w c2).map (Option.map (fun q => -q))
      else getCol w c2 := by
  rw [negateCol] at h
  by_cases hm : c ∈ w.cols
  swap
  · rw [if_neg hm] at h
    exact Except.noConfusion h
  rw [if_pos hm] at h
  obtain h1 := Except.ok.inj h
  refine ⟨by rw [← h1], by rw [← h1], ?_⟩
  intro c2
  rw [← h1]
  show (w.vals.map (fun row => negRow w.cols row c)).map
    (fun row => cellAt w.cols row c2) = _
  rw [List.map_map]
  by_cases hc : c2 = c
  · rw [if_pos hc, getCol, List.map_map]
    apply List.map_congr_left
    intro row _
    simp only [Function.comp_apply]
    rw [cellAt_negRow, if_pos hc]
  · rw [if_neg hc, getCol]
    apply List.map_congr_left
    intro row _
    simp only [Function.comp_apply]
    rw [cellAt_negRow, if_neg hc]

theorem polarityLoop_unchanged (inds : List Indicator) (w w3 : WideTable)
    (h : polarityLoop inds w = .ok w3) (c : String)
    (hc : c ∉ inds.map Indicator.indicator_name) :
    getCol w3 c = getCol w c := by
  induction inds generalizing w with
  | nil =>
    rw [polarityLoop] at h
    rw [Except.ok.inj h]
  | cons i rest ih =>
    simp only [List.map_cons, List.mem_cons] at hc
    push_neg at hc
    rw [polarityLoop] at h
    by_cases hmw : i.more_is_worse
    · rw [if_pos hmw] at h
      exact ih w h hc.2
    · rw [if_neg hmw] at h
      cases hn : negateCol w i.indicator_name with
      | error e =>
        rw [hn] at h
        exact Except.noConfusion h
      | ok w1 =>
        rw [hn, ok_bind] at h
        rw [ih w1 h hc.2, (negateCol_state w w1 i.indicator_name hn).2.2 c,
          if_neg hc.1]

theorem polarityLoop_getCol (inds : List Indicator) (w w3 : WideTable)
    (hnd : (inds.map Indicator.indicator_name).Nodup)
    (h : polarityLoop inds w = .ok w3) :
    ∀ j ∈ inds,
      (j.more_is_worse = false →
        getCol w3 j.indicator_name =
          (getCol w j.indicator_name).map (Option.map (fun q => -q))) ∧
      (j.more_is_worse = true →
        getCol w3 j.indicator_name = getCol w j.indicator_name) := by
  induction inds generalizing w with
  | nil =>
    intro j hj
    simp at hj
  | cons i rest ih =>
    simp only [List.map_cons, List.nodup_cons] at hnd
    intro j hj
    rw [polarityLoop] at h
    by_cases hmw : i.more_is_worse
    · rw [if_pos hmw] at h
      rcases List.mem_cons.mp hj with hji | hjr
      · subst hji
        refine ⟨fun hfalse => absurd hmw (by rw [hfalse]; exact Bool.noConfusion), ?_⟩
        intro _
        exact polarityLoop_unchanged rest w w3 h j.indicator_name hnd.1
      · exact ih w hnd.2 h j hjr
    · rw [if_neg hmw] at h
      cases hn : negateCol w i.indicator_name with
      | error e =>
        rw [hn] at h
        exact Except.noConfusion h
      | ok w1 =>
        rw [hn, ok_bind] at h
        obtain hstep := (negateCol_state w w1 i.indicator_name hn).2.2
        rcases List.mem_cons.mp hj with hji | hjr
        · subst hji
          refine ⟨?_, fun htrue => absurd htrue (by simpa using hmw)⟩
          intro _
          rw [polarityLoop_unchanged rest w1 w3 h j.indicator_name hnd.1,
            hstep j.indicator_name, if_pos rfl]
        · have hne : j.indicator_name ≠ i.indicator_name := by
            intro he
            exact hnd.1 (he ▸ List.mem_map_of_mem Indicator.indicator_name hjr)
          obtain ⟨hf, ht⟩ := ih w1 hnd.2 h j hjr
          constructor
          · intro hfalse
            rw [hf hfalse, hstep j.indicator_name, if_neg hne]
          · intro htrue
            rw [ht htrue, hstep j.indicator_name, if_neg hne]

/-- C2: when `index_data` succeeds with a registered scaler over an Index
whose indicator names are distinct, then — whatever the summarised flag —
every column whose Indicator declares `more_is_worse = False` is
sign-inverted in the aggregate table relative to its state after the rescale
and impute phases (and every `more_is_worse` column is unchanged); with the
summarised flag set the resulting data is the Series of unweighted row means
per country, sorted in descending order of that mean, and with the flag
unset the resulting data is the polarity-corrected aggregate itself. -/
theorem c2_index_data_polarity_summarised (env : SklEnv) (idx fin : Index)
    (sc me : String) (summarised : Bool) (f : Table → Table)
    (hf : List.lookup sc (SCALERS env) = some f)
    (hnodup : ((allIndicators idx).map Indicator.indicator_name).Nodup)
    (hfin : Index.index_data env idx sc me summarised = .ok fin) :
    ∃ s2 w2 w3,
      (idx.rescale env sc >>= fun s1 => s1.impute_missing_data env me) = .ok s2 ∧
      s2.data = some (.table w2) ∧
      polarityLoop (allIndicators s2) w2 = .ok w3 ∧
      (∀ i ∈ allIndicators s2, i.more_is_worse = false →
        getCol w3 i.indicator_name =
          (getCol w2 i.indicator_name).map (Option.map (fun q => -q))) ∧
      (∀ i ∈ allIndicators s2, i.more_is_worse = true →
        getCol w3 i.indicator_name = getCol w2 i.indicator_name) ∧
      ((allIndicators s2).map (fun i => (i.indicator_name, i.more_is_worse)) =
        (allIndicators idx).map (fun i => (i.indicator_name, i.more_is_worse))) ∧
      (summarised = true →
        fin.data = some (.series (sort_values_desc (meanSeries w3)))) ∧
      (summarised = false → fin.data = some (.table w3)) ∧
      (sort_values_desc (meanSeries w3)).Perm (meanSeries w3) ∧
      List.Sorted descPairLe (sort_values_desc (meanSeries w3)) := by
  rw [Index.index_data, index_rescale_ok env sc f hf idx, ok_bind] at hfin
  cases him : Index.impute_missing_data env
      { idx with dimensions := idx.dimensions.map (scaleDim f) } me with
  | error e =>
    rw [him] at hfin
    exact Except.noConfusion hfin
  | ok s2 =>
    rw [him, ok_bind] at hfin
    cases hpf : polarityFlip s2 with
    | error e =>
      rw [hpf] at hfin
      exact Except.noConfusion hfin
    | ok s3 =>
      rw [hpf, ok_bind] at hfin
      have hp : ∀ d ∈ ({ idx with dimensions := idx.dimensions.map (scaleDim f) } : Index).dimensions,
          ∀ i ∈ d.indicators, i.data.isSome :=
        scaled_populated f idx.dimensions
      obtain ⟨hai2, w2x, hw2x⟩ := impute_state env _ s2 me him hp
      obtain ⟨hdims, w2, w3, hw2, hloop, hw3⟩ := polarityFlip_state s2 s3 hpf
      have haiscale : allIndicators s2 = (allIndicators idx).map (scaleInd f) := by
        rw [hai2, allIndicators_scaleDim f idx.dimensions idx.data idx.data]
      have hnd2 : ((allIndicators s2).map Indicator.indicator_name).Nodup := by
        rw [haiscale, map_name_scaleInd]
        exact hnodup
      obtain hcols := polarityLoop_getCol (allIndicators s2) w2 w3 hnd2 hloop
      refine ⟨s2, w2, w3, ?_, hw2, hloop, ?_, ?_, ?_, ?_, ?_, ?_, ?_⟩
      · rw [index_rescale_ok env sc f hf idx, ok_bind, him]
      · intro i hi hflag
        exact (hcols i hi).1 hflag
      · intro i hi hflag
        exact (hcols i hi).2 hflag
      · rw [haiscale, map_sig_scaleInd]
      · intro hs
        subst hs
        rw [if_pos rfl] at hfin
        obtain ⟨w3b, hw3b, hfineq⟩ := summarize_state s3 fin hfin
        have hw3eq : w3b = w3 := by
          rw [hw3] at hw3b
          exact (IdxData.table.inj (Option.some.inj hw3b)).symm
        subst hw3eq
        rw [hfineq]
      · intro hs
        subst hs
        rw [if_neg (by simp)] at hfin
        obtain hfineq := Except.ok.inj hfin
        rw [← hfineq]
        exact hw3
      · exact List.perm_insertionSort descPairLe (meanSeries w3)
      · exact List.sorted_insertionSort descPairLe (meanSeries w3)

/-- C2 witness: the full pipeline (min-max rescale, median impute, polarity
flip of column b) on a concrete two-indicator Index, run both with the
summarised flag set (sorted row-mean Series) and unset (the
polarity-corrected aggregate). -/
theorem c2_witness :
    Index.index_data stubEnv c2idx "minmax" "median" true = .ok c2fin ∧
    Index.index_data stubEnv c2idx "minmax" "median" false = .ok c2s3 ∧
    getCol c2w3 "b" = (getCol c2w "b").map (Option.map (fun q => -q)) ∧
    getCol c2w3 "a" = getCol c2w "a" ∧
    c2fin.data = some (.series (sort_values_desc (meanSeries c2w3))) ∧
    c2s3.data = some (.table c2w3) ∧
    (sort_values_desc (meanSeries c2w3)).Perm (meanSeries c2w3) ∧
    List.Sorted descPairLe (sort_values_desc (meanSeries c2w3)) := by
  have hs1 : ({ c2idx with dimensions := c2idx.dimensions.map (scaleDim skl_minmax_scaler) } : Index) = c2rescaled := by
    norm_num [c2idx, c2ind1, c2ind2, c2rescaled, c2ind1s, c2ind2s, scaleDim,
      scaleInd, skl_minmax_scaler, listMin, listMax, List.filterMap_cons]
  have him : c2rescaled.impute_missing_data stubEnv "median" = .ok c2s2 := by
    decide
  have hpf : polarityFlip c2s2 = .ok c2s3 := by decide
  have hsu : summarizeStep c2s3 = .ok c2fin := by
    norm_num [summarizeStep, c2s3, c2fin, c2w3, c2w, meanSeries, rowMean,
      sort_values_desc, List.insertionSort, List.orderedInsert, descPairLe,
      descValLe, List.filterMap_cons]
  have hfin : Index.index_data stubEnv c2idx "minmax" "median" true =
      .ok c2fin := by
    rw [Index.index_data,
      index_rescale_ok stubEnv "minmax" skl_minmax_scaler rfl c2idx, ok_bind,
      hs1, him, ok_bind, hpf, ok_bind, if_pos rfl]
    exact hsu
  have hfinF : Index.index_data stubEnv c2idx "minmax" "median" false =
      .ok c2s3 := by
    rw [Index.index_data,
      index_rescale_ok stubEnv "minmax" skl_minmax_scaler rfl c2idx, ok_bind,
      hs1, him, ok_bind, hpf, ok_bind, if_neg (by simp)]
    rfl
  obtain ⟨s2, w2, w3, h1, h2, h3, h4, h5, _, h7, _, h9, h10⟩ :=
    c2_index_data_polarity_summarised stubEnv c2idx c2fin "minmax" "median"
      true skl_minmax_scaler rfl (by decide) hfin
  obtain ⟨s2f, w2f, w3f, h1f, h2f, h3f, _, _, _, _, h8f, _, _⟩ :=
    c2_index_data_polarity_summarised stubEnv c2idx c2s3 "minmax" "median"
      false skl_minmax_scaler rfl (by decide) hfinF
  have hcomp : (c2idx.rescale stubEnv "minmax" >>= fun s1 =>
      s1.impute_missing_data stubEnv "median") = .ok c2s2 := by
    rw [index_rescale_ok stubEnv "minmax" skl_minmax_scaler rfl c2idx,
      ok_bind, hs1, him]
  have hs2eq : s2 = c2s2 := Except.ok.inj (h1.symm.trans hcomp)
  subst hs2eq
  have hw2eq : w2 = c2w := by
    have h2b : some (IdxData.table c2w) = some (IdxData.table w2) := h2
    exact (IdxData.table.inj (Option.some.inj h2b)).symm
  subst hw2eq
  have hloop2 : polarityLoop (allIndicators c2s2) c2w = .ok c2w3 := by decide
  have hw3eq : w3 = c2w3 := Except.ok.inj (h3.symm.trans hloop2)
  subst hw3eq
  have hs2eqF : s2f = c2s2 := Except.ok.inj (h1f.symm.trans hcomp)
  subst hs2eqF
  have hw2eqF : w2f = c2w := by
    have h2b : some (IdxData.table c2w) = some (IdxData.table w2f) := h2f
    exact (IdxData.table.inj (Option.some.inj h2b)).symm
  subst hw2eqF
  have hw3eqF : w3f = c2w3 := Except.ok.inj (h3f.symm.trans hloop2)
  subst hw3eqF
  exact ⟨hfin, hfinF, h4 c2ind2s (by decide) rfl, h5 c2ind1s (by decide) rfl,
    h7 rfl, h8f rfl, h9, h10⟩
